import Mathlib

/-!
Verification development for the `network_cards` Python package.

The definitions below are a shallow embedding of `network_cards/network_cards.py`
and `network_cards/format_helpers.py`:

* Python scalar values (str / int / float) become the `Value` type; floats are
  carried as exact rationals, and the numeric formatting helpers are modelled
  on the exact rational value.
* A panel entry is either a bare scalar or a tuple/list
  `(value, footnote, footnote, ...)`; both Python shapes behave identically in
  every read of the source (each read is guarded by
  `isinstance(entry, (tuple, list))`), so they collapse to one constructor
  `Entry.seq` carrying the value and the footnote texts.
* Python dicts (insertion ordered) become association lists with
  dict-semantics update: overwriting keeps the position, a new key is appended.
* Code that can raise becomes functions returning an error component next to
  the post-state, mirroring the fact that the Python methods mutate in place
  and raise before any mutation happens on their error paths.

The external graph-statistics collaborators that the package delegates to
(networkx average clustering, degree assortativity, diameter) are bundled in
oracle structures passed through the population functions; the package only
stores their results, so nothing about them is computed here.  Degrees, edge
and node counts, self-loops and connectivity tests are computed from the graph
model directly, mirroring the networkx calls the source makes.
-/

namespace NetworkCards

/-- A Python scalar value as stored in a card field: a string, an int, or a
float (floats carried as exact rationals). -/
inductive Value where
  | vstr (s : String)
  | vint (n : Int)
  | vfloat (q : Rat)
deriving DecidableEq

/-- Python truthiness of a scalar value (`if value:` in the source):
empty string, zero int and zero float are falsy. -/
def Value.truthy : Value → Bool
  | .vstr s => s ≠ ""
  | .vint n => n ≠ 0
  | .vfloat q => q ≠ 0

/-- `NetworkCard._null_string`, the default blank value. -/
def nullString : Value := .vstr ""

/-- A panel entry: a bare scalar, or a tuple/list holding the value followed
by its footnote texts (the source represents the latter as
`(value, note, note, ...)` and always reads it through
`isinstance(entry, (tuple, list))`, so tuples and lists are identified). -/
inductive Entry where
  | val (v : Value)
  | seq (v : Value) (notes : List Value)
deriving DecidableEq

/-- The first component of an entry (`entry[0]` for tuples, the entry itself
for scalars). -/
def Entry.value : Entry → Value
  | .val v => v
  | .seq v _ => v

/-- The footnote texts of an entry (`entry[1:]` for tuples, none for
scalars). -/
def Entry.notes : Entry → List Value
  | .val _ => []
  | .seq _ ns => ns

/-- A panel: a Python dict from field name to entry, as an insertion-ordered
association list. -/
abbrev Panel := List (String × Entry)

/-- `field in dict` for a panel. -/
def dictMember (d : Panel) (k : String) : Bool :=
  d.any (fun p => p.1 == k)

/-- `dict[key] = value` semantics: an existing key keeps its position and gets
the new value, a new key is appended at the end. -/
def dictInsert (d : Panel) (k : String) (v : Entry) : Panel :=
  if dictMember d k then d.map (fun p => if p.1 == k then (k, v) else p)
  else d ++ [(k, v)]

/-- `dict.get(key)` for a panel. -/
def dictGet (d : Panel) (k : String) : Option Entry :=
  (d.find? (fun p => p.1 == k)).map Prod.snd

/-- `dict.pop(key)` minus the raise: removal of a key.  Under the no-duplicate
key invariant of Python dicts, filtering equals removing the single
occurrence. -/
def dictPop (d : Panel) (k : String) : Panel :=
  d.filter (fun p => p.1 ≠ k)

/-- The names of a panel, in order. -/
def panelKeys (d : Panel) : List String := d.map Prod.fst

/-- The `NetworkCard` state: the three ordered panels.  The graph back
reference of the Python object is used only while populating a card from a
graph, which is modelled by the stand-alone population functions below, so it
is not part of the state.  The cached `_sizes` counters are recomputed from
the panels on every mutation in the source and therefore appear here as
derived functions rather than stored fields. -/
structure NetworkCard where
  D_overall : Panel
  D_structr : Panel
  D_metainf : Panel
deriving DecidableEq

/-- Well-formedness produced by the Python dict representation: within each
panel the field names are distinct. -/
def NetworkCard.WF (c : NetworkCard) : Prop :=
  (panelKeys c.D_overall).Nodup ∧ (panelKeys c.D_structr).Nodup ∧
    (panelKeys c.D_metainf).Nodup

instance (c : NetworkCard) : Decidable c.WF := by
  unfold NetworkCard.WF; infer_instance

/-- One of the three panels, in the fixed card order. -/
inductive PanelId where
  | overall
  | structr
  | metainf
deriving DecidableEq

/-- `self._panel_names`. -/
def panelNames : List String := ["Overall", "Structure", "Metainformation"]

def PanelId.name : PanelId → String
  | .overall => "Overall"
  | .structr => "Structure"
  | .metainf => "Metainformation"

def NetworkCard.panel (c : NetworkCard) : PanelId → Panel
  | .overall => c.D_overall
  | .structr => c.D_structr
  | .metainf => c.D_metainf

def NetworkCard.setPanel (c : NetworkCard) : PanelId → Panel → NetworkCard
  | .overall, d => { c with D_overall := d }
  | .structr, d => { c with D_structr := d }
  | .metainf, d => { c with D_metainf := d }

/-- The panel addressed by a panel-name string, empty for any other string. -/
def NetworkCard.panelByName (c : NetworkCard) (s : String) : Panel :=
  if s == "Overall" then c.D_overall
  else if s == "Structure" then c.D_structr
  else if s == "Metainformation" then c.D_metainf
  else []

/-- The `data` argument of `update_overall` and friends: either a single field
name or a dict of several fields. -/
inductive UpdateData where
  | ustr (f : String)
  | udict (pairs : List (String × Entry))

/-- `NetworkCard._update(data, dest)`: a bare string inserts the field with the
blank value, a dict is applied pair by pair with dict-update semantics. -/
def updPanel (dest : Panel) (data : UpdateData) : Panel :=
  match data with
  | .ustr f => dictInsert dest f (.val nullString)
  | .udict ps => ps.foldl (fun d p => dictInsert d p.1 p.2) dest

/-- The `if value: data = {data: value}` preamble shared by `update_overall`,
`update_structure` and `update_metainfo`: a truthy `value` turns the call into
the dict form `{data: value}`; a falsy or absent `value` leaves `data` as is.
(When `data` is already a dict the callers never pass a `value`; Python would
raise a TypeError on the unhashable key in that unused combination, which the
model leaves as the identity.) -/
def resolveUpdateArgs (data : UpdateData) (value : Option Value) : UpdateData :=
  match value with
  | none => data
  | some v =>
    if v.truthy then
      match data with
      | .ustr f => .udict [(f, .val v)]
      | .udict ps => .udict ps
    else data

/-- `NetworkCard.update_overall`. -/
def NetworkCard.update_overall (c : NetworkCard) (data : UpdateData)
    (value : Option Value) : NetworkCard :=
  { c with D_overall := updPanel c.D_overall (resolveUpdateArgs data value) }

/-- `NetworkCard.update_structure`. -/
def NetworkCard.update_structure (c : NetworkCard) (data : UpdateData)
    (value : Option Value) : NetworkCard :=
  { c with D_structr := updPanel c.D_structr (resolveUpdateArgs data value) }

/-- `NetworkCard.update_metainfo`. -/
def NetworkCard.update_metainfo (c : NetworkCard) (data : UpdateData)
    (value : Option Value) : NetworkCard :=
  { c with D_metainf := updPanel c.D_metainf (resolveUpdateArgs data value) }

/-- The three update methods, dispatched on the panel. -/
def NetworkCard.updateField (c : NetworkCard) (p : PanelId) (data : UpdateData)
    (value : Option Value) : NetworkCard :=
  match p with
  | .overall => c.update_overall data value
  | .structr => c.update_structure data value
  | .metainf => c.update_metainfo data value

/-- `NetworkCard._remove` behind `remove_overall` / `remove_structure` /
`remove_metainfo`: `dest.pop(field)` raises a KeyError on an absent field
before touching anything, so the error branch carries the unchanged card. -/
def NetworkCard.removeField (c : NetworkCard) (p : PanelId) (field : String) :
    Option String × NetworkCard :=
  let d := c.panel p
  if dictMember d field then (none, c.setPanel p (dictPop d field))
  else (some ("KeyError: " ++ field), c)

/-- Appending a footnote to an entry: a scalar becomes a tuple
`(value, note)`, a tuple gets the note appended (`NetworkCard._add_footnote`
body after the successful lookup). -/
def pushNote (e : Entry) (note : Value) : Entry :=
  match e with
  | .val v => .seq v [note]
  | .seq v ns => .seq v (ns ++ [note])

/-- `NetworkCard._add_footnote` behind the three `add_footnote_PANEL` methods:
the lookup `dest[field]` raises before any mutation when the field is absent
from the addressed panel. -/
def NetworkCard.addFootnoteIn (c : NetworkCard) (p : PanelId) (field : String)
    (note : Value) : Option String × NetworkCard :=
  match dictGet (c.panel p) field with
  | some e => (none, c.setPanel p (dictInsert (c.panel p) field (pushNote e note)))
  | none => (some ("KeyError: Field " ++ field ++ " not found in specified dict"), c)

/-- `NetworkCard.add_footnote`: search the panels in Overall, Structure,
Metainformation order and act on the first panel containing the field; raise
if no panel does. -/
def NetworkCard.add_footnote (c : NetworkCard) (field : String) (note : Value) :
    Option String × NetworkCard :=
  if dictMember c.D_overall field then c.addFootnoteIn .overall field note
  else if dictMember c.D_structr field then c.addFootnoteIn .structr field note
  else if dictMember c.D_metainf field then c.addFootnoteIn .metainf field note
  else (some ("KeyError: Field " ++ field ++ " not found in any panel."), c)

/-- `NetworkCard._join_dicts`: one dict collecting the three panels in order
with dict-update semantics (a field name shared by two panels collapses, as in
Python). -/
def NetworkCard.joinDicts (c : NetworkCard) : Panel :=
  updPanel (updPanel (updPanel [] (.udict c.D_overall)) (.udict c.D_structr))
    (.udict c.D_metainf)

/-- The footnote column built by `NetworkCard._series`:
`x[1:] if len(x) > 1 else None` after every entry has been coerced to a
tuple, i.e. `none` for scalar entries and for tuples without notes. -/
def seriesNote : Entry → Option (List Value)
  | .val _ => none
  | .seq _ [] => none
  | .seq _ ns => some ns

/-- The rows `__repr__` scans: field name and optional footnote list, in the
order of the joined dict. -/
def NetworkCard.seriesRows (c : NetworkCard) : List (String × Option (List Value)) :=
  c.joinDicts.map (fun p => (p.1, seriesNote p.2))

/-- The transient footnote registry of one render: the `n2num` dict (note
text to assigned number, in assignment order) and the `num` counter. -/
structure MarkState where
  n2num : List (Value × Nat)
  num : Nat
deriving DecidableEq

/-- `n2num[n]` lookup. -/
def lookupNote (m : List (Value × Nat)) (n : Value) : Option Nat :=
  (m.find? (fun p => p.1 == n)).map Prod.snd

/-- One iteration of the inner loop of `__repr__` (lines 368-374): a seen note
reuses its number, an unseen note takes the next number and is recorded. -/
def markOne (st : MarkState) (n : Value) : String × MarkState :=
  match lookupNote st.n2num n with
  | some k => ("^" ++ toString k, st)
  | none => ("^" ++ toString st.num, ⟨st.n2num ++ [(n, st.num)], st.num + 1⟩)

/-- The inner loop of `__repr__` over one field note list, concatenating the
marks left to right (recursion on the remaining notes instead of the Python
loop accumulator). -/
def markNotes (st : MarkState) : List Value → String × MarkState
  | [] => ("", st)
  | n :: ns =>
    let r := markOne st n
    let t := markNotes r.2 ns
    (r.1 ++ t.1, t.2)

/-- The outer loop of `__repr__` over the rows: rows without notes keep their
field name, rows with notes get the marks appended (recursion on the
remaining rows instead of the Python loop accumulator). -/
def reprFold (st : MarkState) : List (String × Option (List Value)) →
    List String × MarkState
  | [] => ([], st)
  | r :: rs =>
    match r.2 with
    | none =>
      let t := reprFold st rs
      (r.1 :: t.1, t.2)
    | some ns =>
      let m := markNotes st ns
      let t := reprFold m.2 rs
      ((r.1 ++ m.1) :: t.1, t.2)

/-- The footnote clean-up of `NetworkCard.__repr__` (lines 357-378): the
decorated field names and the final text-to-number registry whose entries, in
insertion order, form the rendered legend.  `num` starts at 1 for the text
render. -/
def NetworkCard.reprMarks (c : NetworkCard) : List String × MarkState :=
  reprFold ⟨[], 1⟩ c.seriesRows

/-- Specification-side registry: the distinct note texts in first-occurrence
order, scanning a note list left to right from an already-seen list. -/
def firstOcc (seen : List Value) : List Value → List Value
  | [] => seen
  | n :: ns => firstOcc (if n ∈ seen then seen else seen ++ [n]) ns

/-- All distinct note texts of the rows in first-occurrence order, scanning
rows top to bottom. -/
def collectFrom (seen : List Value) : List (String × Option (List Value)) →
    List Value
  | [] => seen
  | r :: rs =>
    collectFrom (match r.2 with | none => seen | some ns => firstOcc seen ns) rs

def collectNotes (rows : List (String × Option (List Value))) : List Value :=
  collectFrom [] rows

/-- Numbering a list of note texts `k, k + 1, k + 2, ...` in order. -/
def numberedFrom (k : Nat) : List Value → List (Value × Nat)
  | [] => []
  | n :: L => (n, k) :: numberedFrom (k + 1) L

/-- Numbering a first-occurrence list 1, 2, 3, ... in order. -/
def numbered (L : List Value) : List (Value × Nat) :=
  numberedFrom 1 L

/-- Specification-side marks of a note list: each note text is marked with
its position in the global first-occurrence list. -/
def marksOf (L : List Value) : List Value → String
  | [] => ""
  | n :: ns => ("^" ++ toString (L.indexOf n + 1)) ++ marksOf L ns

/-- Specification-side marks of one row. -/
def specMarkString (L : List Value) : Option (List Value) → String
  | none => ""
  | some ns => marksOf L ns

/-- One projected row of `NetworkCard.to_frame`: panel name, field, value and
footnote texts (an empty list models the empty-string note the source stores
for an entry without footnotes). -/
structure FrameRow where
  panel : String
  field : String
  value : Value
  note : List Value
deriving DecidableEq

/-- `NetworkCard.to_frame`: one row per field, the three panels concatenated
in the fixed order. -/
def NetworkCard.to_frame (c : NetworkCard) : List FrameRow :=
  (List.zip panelNames [c.D_overall, c.D_structr, c.D_metainf]).flatMap
    (fun pd => pd.2.map (fun fe => ⟨pd.1, fe.1, fe.2.value, fe.2.notes⟩))

/-! JSON snapshot (`to_dict`, `to_json`, `read_json`). -/

/-- A JSON document as produced by `json.dumps` and consumed by `json.loads`
(with `object_pairs_hook=OrderedDict`, so objects keep their key order). -/
inductive Json where
  | jstr (s : String)
  | jint (n : Int)
  | jfloat (q : Rat)
  | jarr (l : List Json)
  | jobj (l : List (String × Json))

/-- Serializing a scalar. -/
def valueToJson : Value → Json
  | .vstr s => .jstr s
  | .vint n => .jint n
  | .vfloat q => .jfloat q

/-- Parsing a scalar back (`json.loads` yields str / int / float). -/
def jsonToValue : Json → Option Value
  | .jstr s => some (.vstr s)
  | .jint n => some (.vint n)
  | .jfloat q => some (.vfloat q)
  | _ => none

/-- `json.dumps` of an entry: a Python tuple serializes as a JSON array of the
value followed by the footnote texts. -/
def entryToJson : Entry → Json
  | .val v => valueToJson v
  | .seq v ns => .jarr ((v :: ns).map valueToJson)

/-- Parsing a list of scalars. -/
def jsonListToValues : List Json → Option (List Value)
  | [] => some []
  | j :: js => do
    let v ← jsonToValue j
    let vs ← jsonListToValues js
    pure (v :: vs)

/-- `json.loads` of an entry position: a JSON array comes back as a Python
list, which every later read of the card treats exactly like the original
tuple; a scalar comes back as a scalar.  (An empty or nested array never
occurs in a dumped card and has no entry reading.) -/
def jsonToEntry : Json → Option Entry
  | .jarr [] => none
  | .jarr (x :: xs) => do
    let v ← jsonToValue x
    let ns ← jsonListToValues xs
    pure (.seq v ns)
  | j => (jsonToValue j).map .val

/-- `NetworkCard.to_dict`: the dictionary of the three panel dicts, keyed
`overall` / `structure` / `metainfo`. -/
def NetworkCard.to_dict (c : NetworkCard) : List (String × Panel) :=
  [("overall", c.D_overall), ("structure", c.D_structr), ("metainfo", c.D_metainf)]

/-- `NetworkCard.to_json`: `json.dumps(self.to_dict())`. -/
def NetworkCard.to_json (c : NetworkCard) : Json :=
  .jobj (c.to_dict.map (fun p => (p.1, .jobj (p.2.map (fun fe => (fe.1, entryToJson fe.2))))))

/-- Parsing the pairs of one panel object back into dict entries. -/
def jsonPairsToPanel : List (String × Json) → Option Panel
  | [] => some []
  | p :: ps => do
    let e ← jsonToEntry p.2
    let rest ← jsonPairsToPanel ps
    pure ((p.1, e) :: rest)

/-- Parsing one panel object back into a dict of entries. -/
def jsonToPanel : Json → Option Panel
  | .jobj l => jsonPairsToPanel l
  | _ => none

/-- Key lookup in a parsed JSON object (`D['overall']` etc.). -/
def jsonField (j : Json) (k : String) : Option Json :=
  match j with
  | .jobj l => (l.find? (fun p => p.1 == k)).map Prod.snd
  | _ => none

/-- `read_json`: parse the document, build an uninitialized card and push the
three parsed dicts through `update_overall` / `update_structure` /
`update_metainfo` (dict form, no `value` argument).  Any missing key or
non-document shape is a raised error, modelled as `none`. -/
def read_json (j : Json) : Option NetworkCard := do
  let ov ← jsonField j "overall" >>= jsonToPanel
  let st ← jsonField j "structure" >>= jsonToPanel
  let mi ← jsonField j "metainfo" >>= jsonToPanel
  let c : NetworkCard := ⟨[], [], []⟩
  pure (((c.update_overall (.udict ov) none).update_structure (.udict st) none).update_metainfo
    (.udict mi) none)

/-! `format_helpers.tex_escape`. -/

/-- The substitution table of `tex_escape`, in source order.  All patterns are
single characters, so the longest-match-first regex of the source coincides
with a character map. -/
def texConv (c : Char) : Option String :=
  if c = '&' then some "\\&"
  else if c = '%' then some "\\%"
  else if c = '$' then some "\\$"
  else if c = '#' then some "\\#"
  else if c = '_' then some "\\_"
  else if c = '\x7b' then some "\\\x7b"
  else if c = '\x7d' then some "\\\x7d"
  else if c = '~' then some "\\textasciitilde\x7b\x7d"
  else if c = '^' then some "\\^\x7b\x7d"
  else if c = '\\' then some "\\textbackslash\x7b\x7d"
  else if c = '<' then some "\\textless\x7b\x7d"
  else if c = '>' then some "\\textgreater\x7b\x7d"
  else none

/-- The regex substitution applied to a string input. -/
def texEscapeStr (s : String) : String :=
  String.join (s.data.map (fun c => (texConv c).getD (String.singleton c)))

/-- `tex_escape`: ints and floats are returned unchanged by the
`isinstance(text, (int, float))` guard; only strings are escaped. -/
def tex_escape : Value → Value
  | .vint n => .vint n
  | .vfloat q => .vfloat q
  | .vstr s => .vstr (texEscapeStr s)

/-! Numeric formatting.  The source formats numpy floats with Python
`{:g}`, `{:.3g}` and `{:.2%}`; the model applies the same rules to the exact
rational value of the quantity. -/

/-- Round `a / b` (with `b ≠ 0`, both natural) to the nearest integer, ties to
even: the IEEE rounding Python float formatting inherits, on the exact
ratio. -/
def rheNat (a b : Nat) : Nat :=
  let f := a / b
  let r2 := 2 * (a - f * b)
  if r2 < b then f else if b < r2 then f + 1 else if f % 2 = 0 then f else f + 1

/-- `10 ^ e ≤ a / b` for an integer exponent and positive naturals. -/
def pow10Le (e : Int) (a b : Nat) : Bool :=
  if 0 ≤ e then 10 ^ e.toNat * b ≤ a else b ≤ 10 ^ (-e).toNat * a

/-- The number of decimal digits of a natural number. -/
def digitLen (n : Nat) : Nat := (Nat.toDigits 10 n).length

/-- The decimal exponent of the positive ratio `a / b`: the unique `e` with
`10 ^ e ≤ a / b < 10 ^ (e + 1)`, found inside a bracketing range. -/
def decExpFrac (a b : Nat) : Int :=
  let lo : Int := -(digitLen b + 1 : Nat)
  let hi : Int := (digitLen a : Nat) + 1
  ((List.range (hi - lo + 1).toNat).map (fun i => lo + i)).foldl
    (fun acc e => if pow10Le e a b then e else acc) lo

/-- Drop trailing zero characters. -/
def stripZeros (s : List Char) : List Char :=
  (s.reverse.dropWhile (fun c => c = '0')).reverse

/-- Python exponent suffix `e+07` / `e-07` (sign always shown, at least two
digits). -/
def expSuffix (e : Int) : String :=
  let sgn := if e < 0 then "-" else "+"
  let a := toString e.natAbs
  "e" ++ sgn ++ (if e.natAbs < 10 then "0" ++ a else a)

/-- Python `{:.(p)g}` applied to the exact positive ratio `a / b` with sign
flag `neg`: round to `p` significant digits, use fixed notation when the
decimal exponent lies in `[-4, p)` and scientific notation otherwise, and
strip trailing fractional zeros. -/
def fmtGParts (prec : Nat) (neg : Bool) (a b : Nat) : String :=
  let sgn := if neg then "-" else ""
  let p := max prec 1
  let e0 := decExpFrac a b
  let k : Int := (p : Int) - 1 - e0
  let m0 := if 0 ≤ k then rheNat (a * 10 ^ k.toNat) b else rheNat a (b * 10 ^ (-k).toNat)
  let m := if m0 = 10 ^ p then m0 / 10 else m0
  let e := if m0 = 10 ^ p then e0 + 1 else e0
  let D := (toString m).data
  if -4 ≤ e ∧ e < (p : Int) then
    if 0 ≤ e then
      let ilen := e.toNat + 1
      let frac := stripZeros (D.drop ilen)
      sgn ++ String.mk (D.take ilen) ++
        (if frac.isEmpty then "" else "." ++ String.mk frac)
    else
      sgn ++ "0." ++ String.mk (List.replicate (-(e + 1)).toNat '0') ++
        String.mk (stripZeros D)
  else
    let rest := stripZeros (D.drop 1)
    sgn ++ String.mk (D.take 1) ++
      (if rest.isEmpty then "" else "." ++ String.mk rest) ++ expSuffix e

/-- Python `{:.(p)g}` on the nonnegative exact ratio `a / b` (`b ≠ 0`). -/
def fmtGNat (prec a b : Nat) : String :=
  if a = 0 then "0" else fmtGParts prec false a b

/-- Python `{:.2%}` on the nonnegative exact ratio `a / b`: one hundred times
the value, two fixed decimal digits, percent sign. -/
def fmtPct2Nat (a b : Nat) : String :=
  let n := rheNat (10000 * a) b
  toString (n / 100) ++ "." ++
    (if n % 100 < 10 then "0" ++ toString (n % 100) else toString (n % 100)) ++ "%"

/-- Python `str` of a list of ints, e.g. `[2, 1, 1]`. -/
def pyStrIntList (l : List Nat) : String :=
  "[" ++ String.intercalate ", " (l.map toString) ++ "]"

/-- Insert into a descending-sorted list after all entries that are at least
as large (so earlier-processed equal elements stay in front: the stability of
Python `sorted`). -/
def insertDesc (x : Nat) : List Nat → List Nat
  | [] => [x]
  | y :: ys => if x ≤ y then y :: insertDesc x ys else x :: y :: ys

/-- `sorted(values, reverse=True)`: stable descending sort. -/
def sortDesc (l : List Nat) : List Nat :=
  l.foldl (fun acc x => insertDesc x acc) []

/-- `min(values)` on a nonempty list. -/
def listMin : List Nat → Nat
  | [] => 0
  | x :: xs => xs.foldl Nat.min x

/-- `max(values)` on a nonempty list. -/
def listMax : List Nat → Nat
  | [] => 0
  | x :: xs => xs.foldl Nat.max x

/-! `NetworkCard.summarize_distribution`. -/

/-- The summarization footnote text. -/
def distFootnote : String := "Distributions summarized with average [min, max]."

/-- `f"{np.mean(values):g} [{min(values)}, {max(values)}]"` for a nonempty
list of ints. -/
def meanMinMaxStr (values : List Nat) : String :=
  fmtGNat 6 values.sum values.length ++ " [" ++ toString (listMin values) ++ ", " ++
    toString (listMax values) ++ "]"

/-- Python `str.strip()`: whitespace removed from both ends. -/
def pyStrip (s : String) : String :=
  String.mk (((s.data.dropWhile Char.isWhitespace).reverse.dropWhile
    Char.isWhitespace).reverse)

/-- `NetworkCard.summarize_distribution(values, label)`: at most five values
give the literal descending-sorted list as a bare string entry, more give the
mean [min, max] summary with the summarization footnote attached.  (The
`except ValueError` fallback of the source is unreachable: `np.mean` only
raises it on empty input, and the summary branch requires more than five
values.) -/
def summarize_distribution (values : List Nat) (label : String) : List (String × Entry) :=
  let lbl := pyStrip label
  if values.length ≤ 5 then [(lbl, .val (.vstr (pyStrIntList (sortDesc values))))]
  else [(lbl, .seq (.vstr (meanMinMaxStr values)) [.vstr distFootnote])]

/-! Graph models.  A networkx graph is its node list (insertion order) and its
edge list; an undirected graph stores each edge once. -/

/-- An undirected networkx graph. -/
structure UGraph where
  nodes : List Nat
  edges : List (Nat × Nat)
deriving DecidableEq

/-- Well-formedness matching the networkx representation: distinct nodes,
distinct edges with endpoints among the nodes, and no edge stored in both
orientations. -/
def UGraph.WF (g : UGraph) : Prop :=
  g.nodes.Nodup ∧ g.edges.Nodup ∧
    (∀ e ∈ g.edges, e.1 ∈ g.nodes ∧ e.2 ∈ g.nodes) ∧
    (∀ e ∈ g.edges, e.1 = e.2 ∨ (e.2, e.1) ∉ g.edges)

instance (g : UGraph) : Decidable g.WF := by
  unfold UGraph.WF; infer_instance

/-- Degree of a node: incident edges, a self-loop counting twice. -/
def UGraph.degree (g : UGraph) (u : Nat) : Nat :=
  (g.edges.filter (fun e => e.1 == u || e.2 == u)).length +
    (g.edges.filter (fun e => e.1 == u && e.2 == u)).length

/-- `[k for _, k in graph.degree()]`: the degree sequence in node order. -/
def UGraph.degrees (g : UGraph) : List Nat := g.nodes.map g.degree

/-- `nx.number_of_selfloops`. -/
def UGraph.numSelfloops (g : UGraph) : Nat :=
  (g.edges.filter (fun e => e.1 == e.2)).length

/-- Undirected adjacency. -/
def UGraph.adjacent (g : UGraph) (u v : Nat) : Bool :=
  g.edges.any (fun e => (e.1 == u && e.2 == v) || (e.1 == v && e.2 == u))

/-- One breadth step of reachable-set growth. -/
def expandOnce (adj : Nat → Nat → Bool) (nodes : List Nat) (S : List Nat) : List Nat :=
  S ++ nodes.filter (fun v => decide (v ∉ S) && S.any (fun u => adj u v))

/-- All nodes reachable from `u`: `nodes.length` breadth steps saturate. -/
def reachFrom (adj : Nat → Nat → Bool) (nodes : List Nat) (u : Nat) : List Nat :=
  (List.range nodes.length).foldl (fun S _ => expandOnce adj nodes S) [u]

/-- The connected component containing `u`. -/
def UGraph.component (g : UGraph) (u : Nat) : List Nat :=
  reachFrom g.adjacent g.nodes u

/-- `nx.connected_components`, components listed in first-node order. -/
def UGraph.componentsList (g : UGraph) : List (List Nat) :=
  g.nodes.foldl
    (fun acc u => if acc.any (fun comp => decide (u ∈ comp)) then acc else acc ++ [g.component u]) []

/-- Stable insertion into a list of components sorted by descending size. -/
def insertByLenDesc (x : List Nat) : List (List Nat) → List (List Nat)
  | [] => [x]
  | y :: ys => if x.length ≤ y.length then y :: insertByLenDesc x ys else x :: y :: ys

/-- `sorted(components, key=len, reverse=True)`: stable descending sort by
size. -/
def sortByLenDesc (l : List (List Nat)) : List (List Nat) :=
  l.foldl (fun acc x => insertByLenDesc x acc) []

/-- `graph.subgraph(S)`: induced subgraph on a node set. -/
def UGraph.inducedSubgraph (g : UGraph) (S : List Nat) : UGraph :=
  ⟨g.nodes.filter (fun v => decide (v ∈ S)),
    g.edges.filter (fun e => decide (e.1 ∈ S) && decide (e.2 ∈ S))⟩

/-- A directed networkx graph. -/
structure DGraph where
  nodes : List Nat
  edges : List (Nat × Nat)
deriving DecidableEq

/-- Well-formedness: distinct nodes, distinct directed edges with endpoints
among the nodes. -/
def DGraph.WF (g : DGraph) : Prop :=
  g.nodes.Nodup ∧ g.edges.Nodup ∧ (∀ e ∈ g.edges, e.1 ∈ g.nodes ∧ e.2 ∈ g.nodes)

instance (g : DGraph) : Decidable g.WF := by
  unfold DGraph.WF; infer_instance

def DGraph.outDeg (g : DGraph) (u : Nat) : Nat :=
  (g.edges.filter (fun e => e.1 == u)).length

def DGraph.inDeg (g : DGraph) (u : Nat) : Nat :=
  (g.edges.filter (fun e => e.2 == u)).length

/-- `graph.degree()` on a DiGraph: in-degree plus out-degree. -/
def DGraph.unDeg (g : DGraph) (u : Nat) : Nat := g.inDeg u + g.outDeg u

def DGraph.numSelfloops (g : DGraph) : Nat :=
  (g.edges.filter (fun e => e.1 == e.2)).length

/-- `{tuple(sorted(ij)) for ij in graph.edges()}`: the distinct unordered
node pairs carrying at least one directed edge. -/
def DGraph.undirectedLinks (g : DGraph) : List (Nat × Nat) :=
  (g.edges.map (fun e => if e.1 ≤ e.2 then e else (e.2, e.1))).dedup

def DGraph.dAdj (g : DGraph) (u v : Nat) : Bool :=
  g.edges.any (fun e => e.1 == u && e.2 == v)

def DGraph.wAdj (g : DGraph) (u v : Nat) : Bool :=
  g.dAdj u v || g.dAdj v u

/-- `nx.is_strongly_connected` (false stands for the exception networkx
raises on the null graph, which no population path reaches). -/
def DGraph.isStronglyConnected (g : DGraph) : Bool :=
  match g.nodes with
  | [] => false
  | u :: _ =>
    g.nodes.all (fun v => decide (v ∈ reachFrom g.dAdj g.nodes u)) &&
      g.nodes.all (fun v => decide (u ∈ reachFrom g.dAdj g.nodes v))

/-- `nx.is_weakly_connected`. -/
def DGraph.isWeaklyConnected (g : DGraph) : Bool :=
  match g.nodes with
  | [] => false
  | u :: _ => g.nodes.all (fun v => decide (v ∈ reachFrom g.wAdj g.nodes u))

/-! The statistics populator (`NetworkCard.__init__` with `initialize=True`,
structure panel).  The statistics that the package merely copies out of the
external graph-analysis library without inspecting (average clustering,
degree assortativity, diameter) enter through an oracle record; everything
else is computed from the graph model. -/

/-- External library results for undirected graphs.  `clustering` can signal
the ZeroDivisionError that `nx.average_clustering` raises on an empty
graph. -/
structure UOracle where
  clustering : UGraph → Except Unit Value
  assort : UGraph → Value
  diameter : UGraph → Value

/-- External library results for directed graphs. -/
structure DOracle where
  clustering : DGraph → Except Unit Value
  assort : DGraph → Value
  diameter : DGraph → Value

/-- The `Number of links` entry shared by `label_links` for both graph kinds:
with self-loops a descriptive string, otherwise the bare count. -/
def linksEntry (m nsl : Nat) : Entry :=
  if 0 < nsl then
    .val (.vstr (toString m ++ " (" ++ toString nsl ++ " " ++
      (if nsl = 1 then "self-loop" else "self-loops") ++ ")"))
  else .val (.vint m)

def labelNodesU (g : UGraph) : Panel := [("Number of nodes", .val (.vint g.nodes.length))]

def labelLinksU (g : UGraph) : Panel :=
  [("Number of links", linksEntry g.edges.length g.numSelfloops)]

/-- `NetworkCard._label_degree_undirected`. -/
def labelDegreeUndirected (g : UGraph) : Panel :=
  summarize_distribution g.degrees "Degree"

/-- `NetworkCard.label_clustering`: the ZeroDivisionError of the library call
on an empty graph is mapped to the int 0. -/
def labelClusteringU (o : UOracle) (g : UGraph) : Panel :=
  [("Clustering", .val (match o.clustering g with | .ok v => v | .error _ => .vint 0))]

def labelAssortU (o : UOracle) (g : UGraph) : Panel :=
  [("Assortativity (degree)", .val (o.assort g))]

/-- `NetworkCard._label_connected_undirected`. -/
def labelConnectedUndirected (o : UOracle) (g : UGraph) : Panel :=
  let ncc := g.componentsList.length
  if ncc = 1 then
    [("Connected", .val (.vstr "Yes")), ("Diameter", .val (o.diameter g))]
  else
    let comps := sortByLenDesc g.componentsList
    let sizes := comps.map List.length
    updPanel (updPanel (updPanel (updPanel []
      (.udict [("Connected", .val (.vstr (toString ncc ++ " components [" ++
        fmtPct2Nat (listMax sizes) g.nodes.length ++ " in largest]")))]))
      (.udict (summarize_distribution sizes "Component size")))
      (.udict [("Diameter", .val (.vstr "n/a"))]))
      (.udict [("Largest component\x27s diameter",
        .val (o.diameter (g.inducedSubgraph comps.headI)))])

/-- The structure panel built by `__init__` for an undirected graph: the
`update_structure` calls in source order. -/
def initStructureU (o : UOracle) (g : UGraph) : Panel :=
  let d := updPanel [] (.udict (labelNodesU g))
  let d := updPanel d (.udict (labelLinksU g))
  let d := updPanel d (.udict (labelDegreeUndirected g))
  let d := updPanel d (.udict (labelClusteringU o g))
  let d := updPanel d (.udict (labelConnectedUndirected o g))
  updPanel d (.udict (labelAssortU o g))

def labelNodesD (g : DGraph) : Panel := [("Number of nodes", .val (.vint g.nodes.length))]

def labelLinksD (g : DGraph) : Panel :=
  [("Number of links", linksEntry g.edges.length g.numSelfloops)]

/-- `NetworkCard.label_bidirectional_links`: the share of directed links whose
reverse also exists, `100 * (m - pairs) / m` formatted `{:.3g}` with a percent
sign.  Division by the directed edge count raises on an edgeless graph. -/
def labelBidirectional (g : DGraph) : Except String Panel :=
  let m := g.edges.length
  if m = 0 then .error "ZeroDivisionError"
  else
    let nb := m - g.undirectedLinks.length
    .ok [("--- Bidirectional links", .val (.vstr (fmtGNat 3 (100 * nb) m ++ "%")))]

/-- Python tuple unpacking `entry, note = x` of an entry: a two-element tuple
splits, a two-character string splits into its characters, everything else
raises (ValueError on other sizes, TypeError on a non-iterable int or
float). -/
def pyUnpack2 : Entry → Except String (Value × Value)
  | .seq v [n] => .ok (v, n)
  | .seq _ _ => .error "ValueError"
  | .val (.vstr s) =>
    match s.data with
    | [c1, c2] => .ok (.vstr (String.mk [c1]), .vstr (String.mk [c2]))
    | _ => .error "ValueError"
  | .val _ => .error "TypeError"

/-- `NetworkCard._label_degree_directed`: summarize the in-degree sequence as
`Degree (in/out)` and the in-plus-out sequence as `Degree`, then rebuild the
`Degree` entry as `(entry, "Undirected.", note)` by unpacking the previous
entry into two parts. -/
def labelDegreeDirected (g : DGraph) : Except String Panel :=
  let field := updPanel (updPanel []
    (.udict (summarize_distribution (g.nodes.map g.inDeg) "Degree (in/out)")))
    (.udict (summarize_distribution (g.nodes.map g.unDeg) "Degree"))
  match dictGet field "Degree" with
  | none => .error "KeyError"
  | some ent => do
    let en ← pyUnpack2 ent
    pure (dictInsert field "Degree" (.seq en.1 [.vstr "Undirected.", en.2]))

def labelClusteringD (o : DOracle) (g : DGraph) : Panel :=
  [("Clustering", .val (match o.clustering g with | .ok v => v | .error _ => .vint 0))]

def labelAssortD (o : DOracle) (g : DGraph) : Panel :=
  [("Assortativity (degree)", .val (o.assort g))]

/-- `NetworkCard._label_connected_directed`. -/
def labelConnectedDirected (o : DOracle) (g : DGraph) : Panel :=
  if g.isStronglyConnected then
    [("Connected", .val (.vstr "Strongly connected")), ("Diameter", .val (o.diameter g))]
  else if g.isWeaklyConnected then [("Connected", .val (.vstr "Weakly connected"))]
  else [("Connected", .val (.vstr "Disconnected"))]

/-- The structure panel built by `__init__` for a directed graph: the
`update_structure` calls in source order, an exception aborting the whole
initialization. -/
def initStructureD (o : DOracle) (g : DGraph) : Except String Panel := do
  let d := updPanel [] (.udict (labelNodesD g))
  let d := updPanel d (.udict (labelLinksD g))
  let bid ← labelBidirectional g
  let d := updPanel d (.udict bid)
  let deg ← labelDegreeDirected g
  let d := updPanel d (.udict deg)
  let d := updPanel d (.udict (labelClusteringD o g))
  let d := updPanel d (.udict (labelConnectedDirected o g))
  pure (updPanel d (.udict (labelAssortD o g)))

/-! The MultiCard merger (`NetworkMultiCard.__init__`). -/

/-- One merged multicard row: the (panel, field) key and, per source card in
supply order, an optional (value, notes) cell; a missing cell is the NaN that
pandas introduces for an outer-join miss. -/
structure MRow where
  panel : String
  field : String
  cells : List (Option (Value × List Value))
deriving DecidableEq

/-- Key lookup in one card's projected frame. -/
def frameLookup (rows : List FrameRow) (p f : String) : Option FrameRow :=
  rows.find? (fun r => r.panel == p && r.field == f)

/-- `pd.merge(self.D, frame, how='outer', on=["Panel", "Field"])` with the
accumulated frame holding `i` cell columns: the accumulated rows gain the
matching cell of the new frame (or a missing cell), and the unmatched rows of
the new frame are appended in their own order with `i` missing cells before
their cell. -/
def mergeOnto (i : Nat) (acc : List MRow) (rows : List FrameRow) : List MRow :=
  acc.map (fun r =>
    ⟨r.panel, r.field,
      r.cells ++ [(frameLookup rows r.panel r.field).map (fun fr => (fr.value, fr.note))]⟩) ++
  (rows.filter
      (fun fr => !(acc.any (fun r => r.panel == fr.panel && r.field == fr.field)))).map
    (fun fr => ⟨fr.panel, fr.field, List.replicate i none ++ [some (fr.value, fr.note)]⟩)

/-- The merge loop of `NetworkMultiCard.__init__` over the supplied cards. -/
def multiMerged (cards : List NetworkCard) : List MRow :=
  (cards.enum).foldl (fun acc ic => mergeOnto ic.1 acc ic.2.to_frame) []

/-- The panel-order normalization ending `__init__`: the merged rows regrouped
as Overall, then Structure, then Metainformation. -/
def NetworkMultiCard.rows (cards : List NetworkCard) : List MRow :=
  let D := multiMerged cards
  D.filter (fun r => r.panel == "Overall") ++
    D.filter (fun r => r.panel == "Structure") ++
      D.filter (fun r => r.panel == "Metainformation")

/-- `NetworkMultiCard._merge_all_notes`: the per-card note cells collapse into
one set of note texts minus the empty string.  (Python builds a set whose
iteration order is unspecified; the model fixes first-occurrence order, on
which nothing proved here depends.) -/
def MRow.mergedNote (r : MRow) : List Value :=
  ((r.cells.map (fun c => (c.map Prod.snd).getD [])).flatten).dedup.filter
    (fun v => v != .vstr "")

/-- The `fillna(null_string)` a multicard render applies to the value columns:
a missing cell shows as the blank value. -/
def MRow.renderValues (r : MRow) : List Value :=
  r.cells.map (fun c => (c.map Prod.fst).getD nullString)

/-! ### Theorems

Claim C1: footnote numbering in a render. -/

lemma firstOcc_sub (ns : List Value) (seen : List Value) :
    ∃ t, firstOcc seen ns = seen ++ t := by
  induction ns generalizing seen with
  | nil => exact ⟨[], by simp [firstOcc]⟩
  | cons n ns ih =>
    by_cases h : n ∈ seen
    · simpa [firstOcc, h] using ih seen
    · obtain ⟨t, ht⟩ := ih (seen ++ [n])
      exact ⟨n :: t, by simp [firstOcc, h, ht]⟩

lemma mem_firstOcc_left {a : Value} {seen : List Value} (ns : List Value)
    (h : a ∈ seen) : a ∈ firstOcc seen ns := by
  obtain ⟨t, ht⟩ := firstOcc_sub ns seen
  rw [ht]
  exact List.mem_append_left _ h

lemma mem_firstOcc_self {a : Value} {ns : List Value} (seen : List Value)
    (h : a ∈ ns) : a ∈ firstOcc seen ns := by
  induction ns generalizing seen with
  | nil => cases h
  | cons n ns ih =>
    rcases List.mem_cons.1 h with rfl | h2
    · by_cases hs : a ∈ seen
      · simpa [firstOcc, hs] using mem_firstOcc_left ns hs
      · simp only [firstOcc, hs, if_false]
        exact mem_firstOcc_left ns (by simp)
    · by_cases hs : n ∈ seen <;> simp only [firstOcc, hs, if_true, if_false] <;>
        exact ih _ h2

lemma firstOcc_nodup (ns : List Value) (seen : List Value) (h : seen.Nodup) :
    (firstOcc seen ns).Nodup := by
  induction ns generalizing seen with
  | nil => exact h
  | cons n ns ih =>
    by_cases hs : n ∈ seen
    · simpa [firstOcc, hs] using ih seen h
    · simp only [firstOcc, hs, if_false]
      exact ih _ (by simp [List.nodup_append, h, hs])

lemma collectFrom_sub (rows : List (String × Option (List Value)))
    (seen : List Value) : ∃ t, collectFrom seen rows = seen ++ t := by
  induction rows generalizing seen with
  | nil => exact ⟨[], by simp [collectFrom]⟩
  | cons r rs ih =>
    cases hr : r.2 with
    | none => simpa [collectFrom, hr] using ih seen
    | some ns =>
      obtain ⟨t1, ht1⟩ := firstOcc_sub ns seen
      obtain ⟨t2, ht2⟩ := ih (firstOcc seen ns)
      refine ⟨t1 ++ t2, ?_⟩
      simp only [collectFrom, hr]
      rw [ht2, ht1, List.append_assoc]

lemma collectFrom_nodup (rows : List (String × Option (List Value)))
    (seen : List Value) (h : seen.Nodup) : (collectFrom seen rows).Nodup := by
  induction rows generalizing seen with
  | nil => exact h
  | cons r rs ih =>
    cases hr : r.2 with
    | none => simpa [collectFrom, hr] using ih seen h
    | some ns =>
      simp only [collectFrom, hr]
      exact ih _ (firstOcc_nodup ns seen h)

lemma numberedFrom_append (L1 L2 : List Value) (k : Nat) :
    numberedFrom k (L1 ++ L2) = numberedFrom k L1 ++ numberedFrom (k + L1.length) L2 := by
  induction L1 generalizing k with
  | nil => simp [numberedFrom]
  | cons n L1 ih => simp [numberedFrom, ih, Nat.add_assoc, Nat.add_comm 1]

lemma lookupNote_numberedFrom (L : List Value) (n : Value) (k : Nat) :
    lookupNote (numberedFrom k L) n =
      if n ∈ L then some (L.indexOf n + k) else none := by
  induction L generalizing k with
  | nil => simp [lookupNote, numberedFrom]
  | cons m L ih =>
    by_cases h : m = n
    · subst h
      simp [lookupNote, numberedFrom, List.find?]
    · have hbeq : (m == n) = false := by simpa using h
      simp only [numberedFrom, lookupNote, List.find?, hbeq]
      rw [show ((List.find? (fun p => p.1 == n) (numberedFrom (k + 1) L)).map Prod.snd)
          = lookupNote (numberedFrom (k + 1) L) n from rfl, ih]
      have hnm : ¬ n = m := fun hh => h hh.symm
      by_cases hm : n ∈ L
      · simp [hm, List.mem_cons, hnm, List.indexOf_cons_ne _ h, Nat.succ_add,
          Nat.add_assoc, Nat.add_comm 1]
      · simp [hm, List.mem_cons, hnm]

lemma markOne_spec (L : List Value) (n : Value) :
    markOne ⟨numbered L, L.length + 1⟩ n =
      ("^" ++ toString ((firstOcc L [n]).indexOf n + 1),
        ⟨numbered (firstOcc L [n]), (firstOcc L [n]).length + 1⟩) := by
  by_cases h : n ∈ L
  · have hfo : firstOcc L [n] = L := by simp [firstOcc, h]
    rw [hfo]
    simp [markOne, numbered, lookupNote_numberedFrom, h]
  · have hfo : firstOcc L [n] = L ++ [n] := by simp [firstOcc, h]
    rw [hfo]
    have hidx : (L ++ [n]).indexOf n = L.length := by
      rw [List.indexOf_append_of_not_mem h]
      simp [List.indexOf_cons_self]
    simp [markOne, numbered, lookupNote_numberedFrom, h, hidx,
      numberedFrom_append, numberedFrom, Nat.add_comm]

lemma marksOf_extend (ns : List Value) (L t : List Value)
    (h : ∀ n ∈ ns, n ∈ L) : marksOf (L ++ t) ns = marksOf L ns := by
  induction ns with
  | nil => rfl
  | cons n ns ih =>
    simp only [marksOf]
    rw [List.indexOf_append_of_mem (h n (by simp)), ih (fun m hm => h m (by simp [hm]))]

lemma markNotes_spec (ns : List Value) (L : List Value) :
    markNotes ⟨numbered L, L.length + 1⟩ ns =
      (marksOf (firstOcc L ns) ns,
        ⟨numbered (firstOcc L ns), (firstOcc L ns).length + 1⟩) := by
  induction ns generalizing L with
  | nil => simp [markNotes, firstOcc, marksOf]
  | cons n ns ih =>
    have hstep : firstOcc L (n :: ns) = firstOcc (firstOcc L [n]) ns := by
      simp [firstOcc]
    simp only [markNotes, markOne_spec, ih (firstOcc L [n]), hstep]
    obtain ⟨t, ht⟩ := firstOcc_sub ns (firstOcc L [n])
    have hidx : (firstOcc (firstOcc L [n]) ns).indexOf n = (firstOcc L [n]).indexOf n := by
      rw [ht]
      exact List.indexOf_append_of_mem (mem_firstOcc_self L (by simp))
    simp [marksOf, hidx]

lemma reprFold_spec (rows : List (String × Option (List Value))) (L : List Value) :
    reprFold ⟨numbered L, L.length + 1⟩ rows =
      (rows.map (fun r => r.1 ++ specMarkString (collectFrom L rows) r.2),
        ⟨numbered (collectFrom L rows), (collectFrom L rows).length + 1⟩) := by
  induction rows generalizing L with
  | nil => simp [reprFold, collectFrom]
  | cons r rs ih =>
    cases hr : r.2 with
    | none =>
      have hc : collectFrom L (r :: rs) = collectFrom L rs := by
        simp [collectFrom, hr]
      simp [reprFold, hr, ih L, hc, specMarkString]
    | some ns =>
      have hc : collectFrom L (r :: rs) = collectFrom (firstOcc L ns) rs := by
        simp [collectFrom, hr]
      simp only [reprFold, hr, markNotes_spec, ih (firstOcc L ns), hc]
      obtain ⟨t, ht⟩ := collectFrom_sub rs (firstOcc L ns)
      have hspec : specMarkString (collectFrom (firstOcc L ns) rs) (some ns) =
          marksOf (firstOcc L ns) ns := by
        rw [specMarkString, ht,
          marksOf_extend ns _ t (fun m hm => mem_firstOcc_self L hm)]
      simp [hr, hspec]

/-- C1.  In the plain-text render (`__repr__`), footnote numbers are assigned
by scanning the projected rows top to bottom, left to right inside one row's
note list: the decorated field names mark every note occurrence with the
position of its text in the first-occurrence list of all note texts (so any
two occurrences of the same text, in the same or in different fields, carry
the same number), and the final registry, which yields the legend in
insertion order, numbers exactly that duplicate-free first-occurrence list
1, 2, 3, ...: one legend entry per distinct text, created at its first
occurrence, no entry added on reuse.  Both components are a pure function of
the projected rows, so rendering an unchanged card twice yields identical
marks and an identical legend. -/
theorem repr_footnote_numbering_c1 (c : NetworkCard) :
    c.reprMarks =
      ((c.seriesRows).map
        (fun r => r.1 ++ specMarkString (collectNotes c.seriesRows) r.2),
        ⟨numbered (collectNotes c.seriesRows), (collectNotes c.seriesRows).length + 1⟩)
    ∧ (collectNotes c.seriesRows).Nodup := by
  constructor
  · simpa [NetworkCard.reprMarks, collectNotes, numbered, numberedFrom] using
      reprFold_spec c.seriesRows []
  · exact collectFrom_nodup _ _ List.nodup_nil

/-! Dict lemmas shared by the mutation claims. -/

lemma dictGet_eq_none_of_not_member {d : Panel} {k : String}
    (h : dictMember d k = false) : dictGet d k = none := by
  induction d with
  | nil => rfl
  | cons p t ih =>
    simp only [dictMember, List.any_cons, Bool.or_eq_false_iff] at h
    simp only [dictGet, List.find?, h.1]
    exact ih h.2

lemma dictInsert_cons (p : String × Entry) (t : Panel) (k : String) (e : Entry)
    (hp : (p.1 == k) = false) :
    dictInsert (p :: t) k e = p :: dictInsert t k e := by
  have hp2 : ¬ p.1 = k := by simpa using hp
  simp only [dictInsert, dictMember, List.any_cons, hp, Bool.false_or]
  by_cases hm : (List.any t fun q => q.1 == k) = true
  · simp [hm, hp, hp2]
  · simp [hm]

lemma dictGet_dictInsert_self (d : Panel) (k : String) (e : Entry) :
    dictGet (dictInsert d k e) k = some e := by
  induction d with
  | nil => simp [dictInsert, dictMember, dictGet, List.find?]
  | cons p t ih =>
    by_cases hp : (p.1 == k) = true
    · have hk : p.1 = k := by simpa using hp
      simp [dictInsert, dictMember, List.any_cons, hp, dictGet, List.find?, hk]
    · have hp2 : (p.1 == k) = false := by simpa using hp
      rw [dictInsert_cons p t k e hp2]
      simp only [dictGet, List.find?, hp2]
      exact ih

lemma dictGet_map_insert (d : Panel) (k : String) (e : Entry) (k2 : String)
    (h : ¬ k2 = k) :
    dictGet (d.map (fun p => if p.1 == k then (k, e) else p)) k2 = dictGet d k2 := by
  induction d with
  | nil => rfl
  | cons p t ih =>
    by_cases hp : (p.1 == k) = true
    · have hk : p.1 = k := by simpa using hp
      have hkk2 : (k == k2) = false := by simpa using fun hh => h hh.symm
      have hpk2 : (p.1 == k2) = false := by rw [hk]; exact hkk2
      simp only [List.map_cons, hp, if_true, dictGet, List.find?, hkk2, hpk2]
      exact ih
    · have hp2 : (p.1 == k) = false := by simpa using hp
      simp only [List.map_cons, hp2, Bool.false_eq_true, if_false, dictGet, List.find?]
      cases hq : (p.1 == k2)
      · exact ih
      · rfl

lemma dictGet_append_single_ne (d : Panel) (k : String) (e : Entry) (k2 : String)
    (h : ¬ k2 = k) : dictGet (d ++ [(k, e)]) k2 = dictGet d k2 := by
  have hkk2 : (k == k2) = false := by simpa using fun hh => h hh.symm
  induction d with
  | nil => simp [dictGet, List.find?, hkk2]
  | cons p t ih =>
    simp only [List.cons_append, dictGet, List.find?]
    cases hq : (p.1 == k2)
    · exact ih
    · rfl

lemma dictGet_dictInsert_ne (d : Panel) (k : String) (e : Entry) (k2 : String)
    (h : ¬ k2 = k) : dictGet (dictInsert d k e) k2 = dictGet d k2 := by
  unfold dictInsert
  cases hm : dictMember d k
  · simp only [hm, Bool.false_eq_true, if_false]
    exact dictGet_append_single_ne d k e k2 h
  · simp only [hm, if_true]
    exact dictGet_map_insert d k e k2 h

lemma panelKeys_dictInsert (d : Panel) (k : String) (e : Entry) :
    panelKeys (dictInsert d k e) =
      if dictMember d k then panelKeys d else panelKeys d ++ [k] := by
  cases hm : dictMember d k
  · simp [dictInsert, hm, panelKeys]
  · have hmap : ∀ p ∈ d, ((if p.1 == k then (k, e) else p) : String × Entry).1 = p.1 := by
      intro p _
      by_cases hp : (p.1 == k) = true
      · have hk : p.1 = k := by simpa using hp
        simp [hp, hk]
      · simp [hp]
    simp only [dictInsert, hm, if_true, panelKeys, List.map_map]
    exact List.map_congr_left (fun p hp => hmap p hp)

lemma updateField_panel (c : NetworkCard) (p : PanelId) (data : UpdateData)
    (value : Option Value) :
    (c.updateField p data value).panel p = updPanel (c.panel p) (resolveUpdateArgs data value) := by
  cases p <;> rfl

/-- C10.  `tex_escape` returns int and float inputs unchanged, applying no
escaping at all; the reserved-character substitution happens only on the
string branch (third conjunct: a string containing a reserved character is
rewritten). -/
theorem tex_escape_numeric_identity_c10 :
    (∀ n : Int, tex_escape (.vint n) = .vint n) ∧
    (∀ q : Rat, tex_escape (.vfloat q) = .vfloat q) ∧
    tex_escape (.vstr "100%") = .vstr "100\\%" :=
  ⟨fun _ => rfl, fun _ => rfl, by decide⟩

/-- C3 counterexample.  `update(panel, f, v)` does not store `v` when `v` is
falsy: `update_overall("Nodes are", 0)` stores the blank string, not the int
0, because `if value:` treats the int 0 as absent. -/
theorem update_exact_value_counterexample_c3 :
    dictGet ((NetworkCard.update_overall ⟨[], [], []⟩ (.ustr "Nodes are")
        (some (.vint 0))).D_overall) "Nodes are" = some (.val (.vstr "")) ∧
      Entry.val (.vstr "") ≠ Entry.val (.vint 0) := by decide

/-- C3 amended.  For every panel, field `f` and truthy value `v`,
`update(panel, f, v)` leaves `f` bound to exactly `v`: inserted at the end of
the panel order when absent, overwritten in place (key order unchanged) when
present, with all other fields untouched; a falsy or omitted `value` makes the
call insert or overwrite `f` with the default blank value instead. -/
theorem update_insert_or_overwrite_c3 (c : NetworkCard) (p : PanelId) (f : String)
    (v : Value) (hv : v.truthy = true) :
    (dictGet ((c.updateField p (.ustr f) (some v)).panel p) f = some (.val v)) ∧
    (panelKeys ((c.updateField p (.ustr f) (some v)).panel p) =
      if dictMember (c.panel p) f then panelKeys (c.panel p)
      else panelKeys (c.panel p) ++ [f]) ∧
    (∀ f2, ¬ f2 = f → dictGet ((c.updateField p (.ustr f) (some v)).panel p) f2 =
      dictGet (c.panel p) f2) ∧
    (∀ w : Option Value, (∀ u, w = some u → u.truthy = false) →
      dictGet ((c.updateField p (.ustr f) w).panel p) f = some (.val nullString)) := by
  have hres : resolveUpdateArgs (.ustr f) (some v) = .udict [(f, .val v)] := by
    simp [resolveUpdateArgs, hv]
  have hupd : (c.updateField p (.ustr f) (some v)).panel p =
      dictInsert (c.panel p) f (.val v) := by
    rw [updateField_panel, hres]
    rfl
  refine ⟨?_, ?_, ?_, ?_⟩
  · rw [hupd]
    exact dictGet_dictInsert_self _ _ _
  · rw [hupd]
    exact panelKeys_dictInsert _ _ _
  · intro f2 h2
    rw [hupd]
    exact dictGet_dictInsert_ne _ _ _ _ h2
  · intro w hw
    have hres2 : resolveUpdateArgs (.ustr f) w = .ustr f := by
      cases w with
      | none => rfl
      | some u =>
        have := hw u rfl
        simp [resolveUpdateArgs, this]
    have : (c.updateField p (.ustr f) w).panel p =
        dictInsert (c.panel p) f (.val nullString) := by
      rw [updateField_panel, hres2]
      rfl
    rw [this]
    exact dictGet_dictInsert_self _ _ _

/-- C3 witness at a concrete input. -/
theorem update_insert_or_overwrite_c3_witness :
    (Value.vstr "y").truthy = true ∧
    dictGet (((⟨[], [], []⟩ : NetworkCard).updateField .overall (.ustr "x")
      (some (.vstr "y"))).panel .overall) "x" = some (.val (.vstr "y")) :=
  ⟨by decide,
    (update_insert_or_overwrite_c3 ⟨[], [], []⟩ .overall "x" (.vstr "y") (by decide)).1⟩

/-- C4 counterexample.  Updating an existing field that carries a footnote
does not leave the footnote attached: the whole entry is replaced by the bare
new value and the note list becomes empty. -/
theorem update_keeps_footnotes_counterexample_c4 :
    dictGet ((NetworkCard.update_structure
        ⟨[], [("Degree", .seq (.vstr "old") [.vstr "a note"])], []⟩
        (.ustr "Degree") (some (.vstr "new"))).D_structr) "Degree" =
      some (.val (.vstr "new")) ∧
    Entry.notes (.val (.vstr "new")) = [] ∧
    Entry.notes (.seq (.vstr "old") [.vstr "a note"]) ≠ [] := by decide

/-- C4 amended.  Updating an existing field with a (field, truthy value) pair
replaces the whole entry with the bare value: the previously attached footnote
sequence is discarded, not preserved. -/
theorem update_replaces_whole_entry_c4 (c : NetworkCard) (p : PanelId) (f : String)
    (v : Value) (hv : v.truthy = true) (e : Entry)
    (_he : dictGet (c.panel p) f = some e) :
    dictGet ((c.updateField p (.ustr f) (some v)).panel p) f = some (.val v) ∧
      Entry.notes (.val v) = [] :=
  ⟨(update_insert_or_overwrite_c3 c p f v hv).1, rfl⟩

/-- C4 witness at a concrete input. -/
theorem update_replaces_whole_entry_c4_witness :
    (Value.vstr "new").truthy = true ∧
    dictGet ((NetworkCard.panel ⟨[], [("Degree", .seq (.vstr "old") [.vstr "a note"])], []⟩
      .structr) ) "Degree" = some (.seq (.vstr "old") [.vstr "a note"]) ∧
    dictGet ((NetworkCard.updateField ⟨[], [("Degree", .seq (.vstr "old") [.vstr "a note"])], []⟩
        .structr (.ustr "Degree") (some (.vstr "new"))).panel .structr) "Degree" =
      some (.val (.vstr "new")) :=
  ⟨by decide, by decide,
    (update_replaces_whole_entry_c4 ⟨[], [("Degree", .seq (.vstr "old") [.vstr "a note"])], []⟩
      .structr "Degree" (.vstr "new") (by decide) (.seq (.vstr "old") [.vstr "a note"])
      (by decide)).1⟩

/-- C9.  Removing a field absent from the addressed panel fails with a
KeyError and leaves the card exactly as it was; attaching a footnote through
the panel-specific method fails likewise when the field is absent from that
panel; attaching through the panel-searching method fails when the field is
absent from every panel; in each case the card is returned in its pre-call
state. -/
theorem failed_mutations_atomic_c9 (c : NetworkCard) (p : PanelId) (f : String)
    (note : Value) (h : dictMember (c.panel p) f = false) :
    ((c.removeField p f).1.isSome = true ∧ (c.removeField p f).2 = c) ∧
    ((c.addFootnoteIn p f note).1.isSome = true ∧ (c.addFootnoteIn p f note).2 = c) ∧
    ((∀ q : PanelId, dictMember (c.panel q) f = false) →
      (c.add_footnote f note).1.isSome = true ∧ (c.add_footnote f note).2 = c) := by
  refine ⟨?_, ?_, ?_⟩
  · simp [NetworkCard.removeField, h]
  · simp [NetworkCard.addFootnoteIn, dictGet_eq_none_of_not_member h]
  · intro hall
    have h1 := hall .overall
    have h2 := hall .structr
    have h3 := hall .metainf
    simp only [NetworkCard.panel] at h1 h2 h3
    simp [NetworkCard.add_footnote, h1, h2, h3]

/-- C9 witness at a concrete input. -/
theorem failed_mutations_atomic_c9_witness :
    dictMember ((⟨[("a", .val (.vstr "1"))], [], []⟩ : NetworkCard).panel .overall) "b" = false ∧
    ((⟨[("a", .val (.vstr "1"))], [], []⟩ : NetworkCard).removeField .overall "b").2 =
      (⟨[("a", .val (.vstr "1"))], [], []⟩ : NetworkCard) :=
  ⟨by decide,
    (failed_mutations_atomic_c9 ⟨[("a", .val (.vstr "1"))], [], []⟩ .overall "b"
      (.vstr "n") (by decide)).1.2⟩

/-! Claims C7 and C8: the JSON snapshot round trip. -/

lemma jsonToValue_valueToJson (v : Value) : jsonToValue (valueToJson v) = some v := by
  cases v <;> rfl

lemma jsonListToValues_map (ns : List Value) :
    jsonListToValues (ns.map valueToJson) = some ns := by
  induction ns with
  | nil => rfl
  | cons n ns ih => simp [jsonListToValues, jsonToValue_valueToJson, ih]

lemma jsonToEntry_entryToJson (e : Entry) : jsonToEntry (entryToJson e) = some e := by
  cases e with
  | val v => cases v <;> rfl
  | seq v ns =>
    simp [entryToJson, jsonToEntry, jsonToValue_valueToJson, jsonListToValues_map]

lemma jsonToPanel_panelToJson (d : Panel) :
    jsonToPanel (.jobj (d.map (fun fe => (fe.1, entryToJson fe.2)))) = some d := by
  induction d with
  | nil => rfl
  | cons fe d ih =>
    simp only [jsonToPanel] at ih ⊢
    simp [jsonPairsToPanel, jsonToEntry_entryToJson, ih]

lemma dictMember_append (a b : Panel) (k : String) :
    dictMember (a ++ b) k = (dictMember a k || dictMember b k) := by
  simp [dictMember, List.any_append]

lemma foldl_dictInsert_of_disjoint (d : Panel) (acc : Panel)
    (hdisj : ∀ p ∈ d, dictMember acc p.1 = false)
    (hnodup : (panelKeys d).Nodup) :
    d.foldl (fun a p => dictInsert a p.1 p.2) acc = acc ++ d := by
  induction d generalizing acc with
  | nil => simp
  | cons p d ih =>
    have hpm : dictMember acc p.1 = false := hdisj p (by simp)
    have hins : dictInsert acc p.1 p.2 = acc ++ [p] := by
      simp [dictInsert, hpm]
    have hkeys : (panelKeys d).Nodup ∧ p.1 ∉ panelKeys d := by
      have := hnodup
      simp only [panelKeys, List.map_cons, List.nodup_cons] at this
      exact ⟨this.2, this.1⟩
    have hd2 : ∀ q ∈ d, dictMember (acc ++ [p]) q.1 = false := by
      intro q hq
      rw [dictMember_append]
      have h1 : dictMember acc q.1 = false := hdisj q (by simp [hq])
      have h2 : dictMember [p] q.1 = false := by
        have : ¬ p.1 = q.1 := by
          intro hh
          exact hkeys.2 (hh ▸ List.mem_map_of_mem Prod.fst hq)
        simp [dictMember, this]
      simp [h1, h2]
    calc (p :: d).foldl (fun a q => dictInsert a q.1 q.2) acc
        = d.foldl (fun a q => dictInsert a q.1 q.2) (acc ++ [p]) := by
          simp [List.foldl_cons, hins]
      _ = (acc ++ [p]) ++ d := ih (acc ++ [p]) hd2 hkeys.1
      _ = acc ++ (p :: d) := by simp

lemma updPanel_nil_of_nodup (d : Panel) (h : (panelKeys d).Nodup) :
    updPanel [] (.udict d) = d := by
  simpa using foldl_dictInsert_of_disjoint d [] (by intro p _; rfl) h

/-- Full-fidelity JSON round trip on a well-formed card: dumping with
`to_json` and loading with `read_json` reconstructs the panels exactly,
tuple-shaped entries (value plus footnotes) coming back as the equally-read
list shape. -/
lemma read_json_to_json (c : NetworkCard) (h : c.WF) :
    read_json c.to_json = some c := by
  obtain ⟨h1, h2, h3⟩ := h
  have hov : jsonField c.to_json "overall" =
      some (.jobj (c.D_overall.map (fun fe => (fe.1, entryToJson fe.2)))) := rfl
  have hst : jsonField c.to_json "structure" =
      some (.jobj (c.D_structr.map (fun fe => (fe.1, entryToJson fe.2)))) := rfl
  have hmi : jsonField c.to_json "metainfo" =
      some (.jobj (c.D_metainf.map (fun fe => (fe.1, entryToJson fe.2)))) := rfl
  simp [read_json, hov, hst, hmi, jsonToPanel_panelToJson,
    NetworkCard.update_overall, NetworkCard.update_structure,
    NetworkCard.update_metainfo, resolveUpdateArgs,
    updPanel_nil_of_nodup _ h1, updPanel_nil_of_nodup _ h2,
    updPanel_nil_of_nodup _ h3]

/-- C7.  Serializing a card with `to_json`, reconstructing with `read_json`
and projecting with `to_frame` yields exactly the original ordered sequence
of (panel, field, value) triples. -/
theorem json_roundtrip_frame_c7 (c : NetworkCard) (h : c.WF) :
    ∃ c2, read_json c.to_json = some c2 ∧
      c2.to_frame.map (fun r => (r.panel, r.field, r.value)) =
        c.to_frame.map (fun r => (r.panel, r.field, r.value)) :=
  ⟨c, read_json_to_json c h, rfl⟩

/-- C7 witness at a concrete card. -/
theorem json_roundtrip_frame_c7_witness :
    (⟨[("Name", .val (.vstr "Graph 01"))], [("Number of nodes", .val (.vint 3))],
        []⟩ : NetworkCard).WF ∧
    ∃ c2, read_json (NetworkCard.to_json ⟨[("Name", .val (.vstr "Graph 01"))],
        [("Number of nodes", .val (.vint 3))], []⟩) = some c2 ∧
      c2.to_frame.map (fun r => (r.panel, r.field, r.value)) =
        (NetworkCard.to_frame ⟨[("Name", .val (.vstr "Graph 01"))],
          [("Number of nodes", .val (.vint 3))], []⟩).map
          (fun r => (r.panel, r.field, r.value)) :=
  ⟨by decide,
    json_roundtrip_frame_c7 ⟨[("Name", .val (.vstr "Graph 01"))],
      [("Number of nodes", .val (.vint 3))], []⟩ (by decide)⟩

/-- C8 counterexample.  The structured dump does carry footnote information,
and `read_json` does reconstruct footnotes: a card whose only field has the
footnote `why` dumps that text inside the field's JSON array, and the
reconstructed card has the footnote attached. -/
theorem snapshot_footnote_free_counterexample_c8 :
    (read_json (NetworkCard.to_json ⟨[("f", .seq (.vstr "v") [.vstr "why"])], [], []⟩)).map
        (fun c2 => c2.D_overall.map (fun fe => Entry.notes fe.2)) = some [[.vstr "why"]] ∧
    ([[Value.vstr "why"]] : List (List Value)) ≠ [[]] := by
  exact ⟨rfl, by decide⟩

/-- C8 amended.  The structured dump is a nested panel-to-field mapping in
which an entry with footnotes is serialized as the array of its value
followed by its footnote texts, so footnote information is carried along; for
every persisted snapshot of a well-formed card, `read_json` reconstructs the
panels exactly, footnotes included (and attaches nothing new). -/
theorem json_snapshot_carries_footnotes_c8 (c : NetworkCard) (h : c.WF) :
    NetworkCard.to_json c =
      .jobj [("overall", .jobj (c.D_overall.map (fun fe => (fe.1, entryToJson fe.2)))),
        ("structure", .jobj (c.D_structr.map (fun fe => (fe.1, entryToJson fe.2)))),
        ("metainfo", .jobj (c.D_metainf.map (fun fe => (fe.1, entryToJson fe.2))))] ∧
    read_json c.to_json = some c :=
  ⟨rfl, read_json_to_json c h⟩

/-- C8 witness at a concrete card. -/
theorem json_snapshot_carries_footnotes_c8_witness :
    (⟨[("g", .seq (.vstr "w") [.vstr "because"])], [], []⟩ : NetworkCard).WF ∧
    read_json (NetworkCard.to_json ⟨[("g", .seq (.vstr "w") [.vstr "because"])], [], []⟩) =
      some ⟨[("g", .seq (.vstr "w") [.vstr "because"])], [], []⟩ :=
  ⟨by decide,
    (json_snapshot_carries_footnotes_c8 ⟨[("g", .seq (.vstr "w") [.vstr "because"])], [], []⟩
      (by decide)).2⟩

/-! Claims C5 and C6: the statistics populator. -/

lemma summarize_small (values : List Nat) (label : String) (h : values.length ≤ 5) :
    summarize_distribution values label =
      [(pyStrip label, .val (.vstr (pyStrIntList (sortDesc values))))] := by
  simp only [summarize_distribution]
  rw [if_pos h]

lemma summarize_large (values : List Nat) (label : String) (h : 5 < values.length) :
    summarize_distribution values label =
      [(pyStrip label, .seq (.vstr (meanMinMaxStr values)) [.vstr distFootnote])] := by
  simp only [summarize_distribution]
  rw [if_neg (by omega)]

/-- C5.  The two-branch summarization policy, and the point where the code
breaks it.  (1) On the undirected 3-node path graph with edges 1-2 and 2-3
the populated `Degree` field is the literal text `[2, 1, 1]`, whatever the
external statistics oracle returns.  (2) On the directed 3-node path with the
same edges, populating the structure panel raises a ValueError instead of
producing any `Degree` field: `_label_degree_directed` unpacks
`entry, note = field['Degree']` although for at most five nodes
`summarize_distribution` returned a bare string (the module's own `__main__`
demo and `make_templates.py` build 4-node DiGraph cards and hit the same
error).  (3)/(4) `summarize_distribution` itself: at most five values give the
literal descending-sorted list, more give the `mean [min, max]` text with the
summarization footnote attached. -/
theorem degree_summary_two_branch_c5 :
    (∀ o : UOracle, dictGet (initStructureU o ⟨[1, 2, 3], [(1, 2), (2, 3)]⟩) "Degree" =
      some (.val (.vstr "[2, 1, 1]"))) ∧
    (∀ o : DOracle, initStructureD o ⟨[1, 2, 3], [(1, 2), (2, 3)]⟩ =
      .error "ValueError") ∧
    (∀ (values : List Nat) (label : String), values.length ≤ 5 →
      summarize_distribution values label =
        [(pyStrip label, .val (.vstr (pyStrIntList (sortDesc values))))]) ∧
    (∀ (values : List Nat) (label : String), 5 < values.length →
      summarize_distribution values label =
        [(pyStrip label, .seq (.vstr (meanMinMaxStr values)) [.vstr distFootnote])]) :=
  ⟨fun _ => rfl, fun _ => rfl, summarize_small, summarize_large⟩

/-- C5 witness: the branch hypotheses discharged at concrete inputs (the
degree list of the 3-node path and a six-value constant list whose mean
formats as `2`). -/
theorem degree_summary_two_branch_c5_witness :
    summarize_distribution [1, 2, 1] "Degree" =
      [("Degree", .val (.vstr "[2, 1, 1]"))] ∧
    summarize_distribution [2, 2, 2, 2, 2, 2] "Degree" =
      [("Degree", .seq (.vstr "2 [2, 2]") [.vstr distFootnote])] :=
  ⟨(degree_summary_two_branch_c5.2.2.1 [1, 2, 1] "Degree" (by decide)).trans (by decide),
   (degree_summary_two_branch_c5.2.2.2 [2, 2, 2, 2, 2, 2] "Degree"
      (by decide)).trans (by decide)⟩

/-- A field name beginning with `Degree` (the two degree fields of a directed
card are `Degree (in/out)` and `Degree`). -/
def isDegreeField (k : String) : Bool := "Degree".data.isPrefixOf k.data

/-- C6 counterexample.  On the directed 6-cycle (six nodes, six edges, with
any external statistics), the populated structure panel holds exactly two
degree fields, `Degree (in/out)` and `Degree`, not three separate in-degree,
out-degree and undirected-degree fields: the code merges in- and out-degree
into the single `Degree (in/out)` field (`# mean in/out degree same`). -/
theorem directed_degree_fields_counterexample_c6 :
    (initStructureD ⟨fun _ => .ok (.vint 0), fun _ => .vint 0, fun _ => .vint 0⟩
        ⟨[0, 1, 2, 3, 4, 5], [(0, 1), (1, 2), (2, 3), (3, 4), (4, 5), (5, 0)]⟩).map
        panelKeys =
      .ok ["Number of nodes", "Number of links", "--- Bidirectional links",
        "Degree (in/out)", "Degree", "Clustering", "Connected", "Diameter",
        "Assortativity (degree)"] ∧
    (initStructureD ⟨fun _ => .ok (.vint 0), fun _ => .vint 0, fun _ => .vint 0⟩
        ⟨[0, 1, 2, 3, 4, 5], [(0, 1), (1, 2), (2, 3), (3, 4), (4, 5), (5, 0)]⟩).map
        (fun d => (panelKeys d).filter isDegreeField) =
      .ok ["Degree (in/out)", "Degree"] :=
  ⟨rfl, rfl⟩

/-- C6 amended.  For every directed graph with more than five nodes and at
least one edge (smaller directed graphs abort population, see C5), the
populated structure panel holds exactly two degree fields instead of the
single undirected one: `Degree (in/out)` summarizing the in-degree sequence
(whose mean equals the out-degree mean) and `Degree` summarizing the
undirected-equivalent degree sequence with an extra `Undirected.` footnote;
plus the extra bidirectional-links field whose value is
`100 * (directed edge count - unordered pairs with at least one edge) /
directed edge count`, formatted `{:.3g}` with a percent sign. -/
theorem directed_two_degree_fields_c6 (o : DOracle) (g : DGraph)
    (h5 : 5 < g.nodes.length) (he : g.edges ≠ []) :
    (initStructureD o g).map (fun d => dictGet d "Degree (in/out)") =
      .ok (some (.seq (.vstr (meanMinMaxStr (g.nodes.map g.inDeg)))
        [.vstr distFootnote])) ∧
    (initStructureD o g).map (fun d => dictGet d "Degree") =
      .ok (some (.seq (.vstr (meanMinMaxStr (g.nodes.map g.unDeg)))
        [.vstr "Undirected.", .vstr distFootnote])) ∧
    (initStructureD o g).map (fun d => dictGet d "--- Bidirectional links") =
      .ok (some (.val (.vstr (fmtGNat 3
        (100 * (g.edges.length - g.undirectedLinks.length)) g.edges.length ++ "%")))) ∧
    (initStructureD o g).map (fun d => (panelKeys d).filter isDegreeField) =
      .ok ["Degree (in/out)", "Degree"] := by
  have hm0 : ¬ g.edges.length = 0 := by
    intro hh
    exact he (List.length_eq_zero.1 hh)
  have hbid : labelBidirectional g = .ok [("--- Bidirectional links",
      .val (.vstr (fmtGNat 3 (100 * (g.edges.length - g.undirectedLinks.length))
        g.edges.length ++ "%")))] := by
    simp [labelBidirectional, hm0]
  have hdin := summarize_large (g.nodes.map g.inDeg) "Degree (in/out)"
    (by simpa using h5)
  have hdun := summarize_large (g.nodes.map g.unDeg) "Degree" (by simpa using h5)
  have hdeg : labelDegreeDirected g = .ok
      [("Degree (in/out)", .seq (.vstr (meanMinMaxStr (g.nodes.map g.inDeg)))
          [.vstr distFootnote]),
        ("Degree", .seq (.vstr (meanMinMaxStr (g.nodes.map g.unDeg)))
          [.vstr "Undirected.", .vstr distFootnote])] := by
    simp only [labelDegreeDirected, hdin, hdun]
    rfl
  have hrun : initStructureD o g = .ok (updPanel (updPanel
      [("Number of nodes", .val (.vint g.nodes.length)),
        ("Number of links", linksEntry g.edges.length g.numSelfloops),
        ("--- Bidirectional links", .val (.vstr (fmtGNat 3
          (100 * (g.edges.length - g.undirectedLinks.length)) g.edges.length ++ "%"))),
        ("Degree (in/out)", .seq (.vstr (meanMinMaxStr (g.nodes.map g.inDeg)))
          [.vstr distFootnote]),
        ("Degree", .seq (.vstr (meanMinMaxStr (g.nodes.map g.unDeg)))
          [.vstr "Undirected.", .vstr distFootnote]),
        ("Clustering", .val (match o.clustering g with | .ok v => v | .error _ => .vint 0))]
      (.udict (labelConnectedDirected o g))) (.udict (labelAssortD o g))) := by
    simp only [initStructureD, hbid, hdeg]
    rfl
  by_cases hsc : g.isStronglyConnected = true
  · have hconn : labelConnectedDirected o g =
        [("Connected", .val (.vstr "Strongly connected")),
          ("Diameter", .val (o.diameter g))] := by
      simp [labelConnectedDirected, hsc]
    rw [hrun, hconn]
    exact ⟨rfl, rfl, rfl, rfl⟩
  · by_cases hwc : g.isWeaklyConnected = true
    · have hconn : labelConnectedDirected o g =
          [("Connected", .val (.vstr "Weakly connected"))] := by
        simp [labelConnectedDirected, hsc, hwc]
      rw [hrun, hconn]
      exact ⟨rfl, rfl, rfl, rfl⟩
    · have hconn : labelConnectedDirected o g =
          [("Connected", .val (.vstr "Disconnected"))] := by
        simp [labelConnectedDirected, hsc, hwc]
      rw [hrun, hconn]
      exact ⟨rfl, rfl, rfl, rfl⟩

/-- C6 witness: the amended statement discharged on the directed 6-cycle with
a trivial statistics oracle. -/
theorem directed_two_degree_fields_c6_witness :
    5 < ([0, 1, 2, 3, 4, 5] : List Nat).length ∧
    ([(0, 1), (1, 2), (2, 3), (3, 4), (4, 5), (5, 0)] : List (Nat × Nat)) ≠ [] ∧
    (initStructureD ⟨fun _ => .ok (.vint 0), fun _ => .vint 0, fun _ => .vint 0⟩
        ⟨[0, 1, 2, 3, 4, 5], [(0, 1), (1, 2), (2, 3), (3, 4), (4, 5), (5, 0)]⟩).map
        (fun d => dictGet d "Degree") =
      .ok (some (.seq (.vstr "2 [2, 2]") [.vstr "Undirected.", .vstr distFootnote])) :=
  ⟨by decide, by decide,
    ((directed_two_degree_fields_c6 ⟨fun _ => .ok (.vint 0), fun _ => .vint 0, fun _ => .vint 0⟩
        ⟨[0, 1, 2, 3, 4, 5], [(0, 1), (1, 2), (2, 3), (3, 4), (4, 5), (5, 0)]⟩
        (by decide) (by decide)).2.1).trans (by rfl)⟩

/-! Claim C2: the MultiCard outer join. -/

/-- The projected rows of one panel. -/
def segRows (p : String) (d : Panel) : List FrameRow :=
  d.map (fun fe => ⟨p, fe.1, fe.2.value, fe.2.notes⟩)

lemma to_frame_eq (c : NetworkCard) :
    c.to_frame = segRows "Overall" c.D_overall ++ segRows "Structure" c.D_structr ++
      segRows "Metainformation" c.D_metainf := by
  simp [NetworkCard.to_frame, panelNames, segRows, List.zip]

lemma segRows_find?_ne (p q : String) (d : Panel) (f : String) (h : (q == p) = false) :
    (segRows q d).find? (fun r => r.panel == p && r.field == f) = none := by
  rw [List.find?_eq_none]
  intro x hx
  simp only [segRows, List.mem_map] at hx
  obtain ⟨fe, _, rfl⟩ := hx
  simp [h]

lemma segRows_find?_eq (p : String) (d : Panel) (f : String) :
    (segRows p d).find? (fun r => r.panel == p && r.field == f) =
      (d.find? (fun fe => fe.1 == f)).map (fun fe => ⟨p, fe.1, fe.2.value, fe.2.notes⟩) := by
  induction d with
  | nil => rfl
  | cons fe d ih =>
    by_cases hf : (fe.1 == f) = true
    · have hpred : ((⟨p, fe.1, fe.2.value, fe.2.notes⟩ : FrameRow).panel == p &&
          (⟨p, fe.1, fe.2.value, fe.2.notes⟩ : FrameRow).field == f) = true := by
        simp [hf]
      simp only [segRows, List.map_cons, List.find?_cons]
      simp [hpred, hf]
    · have hf2 : (fe.1 == f) = false := by simpa using hf
      have hpred : ((⟨p, fe.1, fe.2.value, fe.2.notes⟩ : FrameRow).panel == p &&
          (⟨p, fe.1, fe.2.value, fe.2.notes⟩ : FrameRow).field == f) = false := by
        simp [hf2]
      simp only [segRows, List.map_cons, List.find?_cons]
      simp only [hpred, hf2]
      simpa [segRows] using ih

lemma panelByName_overall (c : NetworkCard) : c.panelByName "Overall" = c.D_overall := rfl

lemma panelByName_structure (c : NetworkCard) : c.panelByName "Structure" = c.D_structr := rfl

lemma panelByName_metainfo (c : NetworkCard) :
    c.panelByName "Metainformation" = c.D_metainf := rfl

lemma frameLookup_to_frame (c : NetworkCard) (p f : String) (hp : p ∈ panelNames) :
    frameLookup c.to_frame p f =
      (dictGet (c.panelByName p) f).map (fun e => ⟨p, f, e.value, e.notes⟩) := by
  have key : ∀ d : Panel,
      ((d.find? (fun fe => fe.1 == f)).map
        (fun fe => (⟨p, fe.1, fe.2.value, fe.2.notes⟩ : FrameRow))) =
      (dictGet d f).map (fun e => (⟨p, f, e.value, e.notes⟩ : FrameRow)) := by
    intro d
    cases hfe : d.find? (fun fe => fe.1 == f) with
    | none => simp [dictGet, hfe]
    | some fe =>
      have : fe.1 = f := by simpa using List.find?_some hfe
      simp [dictGet, hfe, this]
  simp only [panelNames, List.mem_cons, List.not_mem_nil, or_false] at hp
  rcases hp with rfl | rfl | rfl
  · rw [frameLookup, to_frame_eq, List.find?_append, List.find?_append,
      segRows_find?_eq, segRows_find?_ne _ _ _ _ (by decide),
      segRows_find?_ne _ _ _ _ (by decide), panelByName_overall]
    cases hfe : c.D_overall.find? (fun fe => fe.1 == f) with
    | none => simpa [hfe] using (key c.D_overall).symm ▸ (by simp [dictGet, hfe])
    | some fe =>
      have hkey := key c.D_overall
      rw [hfe] at hkey
      simpa [hfe] using hkey
  · rw [frameLookup, to_frame_eq, List.find?_append, List.find?_append,
      segRows_find?_ne _ _ _ _ (by decide), segRows_find?_eq,
      segRows_find?_ne _ _ _ _ (by decide), panelByName_structure]
    have hkey := key c.D_structr
    cases hfe : c.D_structr.find? (fun fe => fe.1 == f) with
    | none => simp [dictGet, hfe]
    | some fe =>
      rw [hfe] at hkey
      simpa [hfe] using hkey
  · rw [frameLookup, to_frame_eq, List.find?_append, List.find?_append,
      segRows_find?_ne _ _ _ _ (by decide), segRows_find?_ne _ _ _ _ (by decide),
      segRows_find?_eq, panelByName_metainfo]
    have hkey := key c.D_metainf
    cases hfe : c.D_metainf.find? (fun fe => fe.1 == f) with
    | none => simp [dictGet, hfe]
    | some fe =>
      rw [hfe] at hkey
      simpa [hfe] using hkey

lemma dictMember_eq_isSome (d : Panel) (k : String) :
    dictMember d k = (dictGet d k).isSome := by
  rw [Bool.eq_iff_iff]
  simp [dictMember, List.any_eq_true, dictGet, Option.isSome_map, List.find?_isSome]

lemma frameLookup_self (rows : List FrameRow)
    (hnd : (rows.map (fun r => (r.panel, r.field))).Nodup) (fr : FrameRow)
    (hfr : fr ∈ rows) : frameLookup rows fr.panel fr.field = some fr := by
  induction rows with
  | nil => cases hfr
  | cons r t ih =>
    simp only [List.map_cons, List.nodup_cons] at hnd
    rcases List.mem_cons.1 hfr with rfl | hmem
    · have hpos : (fr.panel == fr.panel && fr.field == fr.field) = true := by simp
      exact List.find?_cons_of_pos _ hpos
    · have hne : ¬ (r.panel == fr.panel && r.field == fr.field) = true := by
        intro hh
        simp only [Bool.and_eq_true, beq_iff_eq] at hh
        exact hnd.1 (by
          rw [hh.1, hh.2]
          exact List.mem_map_of_mem (fun r => (r.panel, r.field)) hmem)
      have step : List.find? (fun r2 => r2.panel == fr.panel && r2.field == fr.field)
          (r :: t) = List.find? (fun r2 => r2.panel == fr.panel && r2.field == fr.field) t :=
        List.find?_cons_of_neg t hne
      exact step.trans (ih hnd.2 hmem)

lemma segRows_keys (p : String) (d : Panel) :
    (segRows p d).map (fun r => (r.panel, r.field)) =
      (panelKeys d).map (fun k => (p, k)) := by
  simp [segRows, panelKeys, List.map_map]

lemma to_frame_keys_nodup (c : NetworkCard) (h : c.WF) :
    (c.to_frame.map (fun r => (r.panel, r.field))).Nodup := by
  obtain ⟨h1, h2, h3⟩ := h
  rw [to_frame_eq]
  simp only [List.map_append, segRows_keys]
  have inj : ∀ p : String, Function.Injective (fun k : String => (p, k)) := by
    intro p a b hab
    simpa using congrArg Prod.snd hab
  have dj : ∀ (p q : String) (d1 d2 : Panel), ¬ p = q →
      ((panelKeys d1).map (fun k => (p, k))).Disjoint
        ((panelKeys d2).map (fun k => (q, k))) := by
    intro p q d1 d2 hpq a ha hb
    simp only [List.mem_map] at ha hb
    obtain ⟨k1, _, rfl⟩ := ha
    obtain ⟨k2, _, hk⟩ := hb
    exact hpq (congrArg Prod.fst hk).symm
  refine List.Nodup.append (List.Nodup.append (h1.map (inj _)) (h2.map (inj _))
      (dj _ _ _ _ (by decide))) (h3.map (inj _)) ?_
  intro a ha hb
  rcases List.mem_append.1 ha with ha1 | ha2
  · exact dj _ _ _ _ (by decide) ha1 hb
  · exact dj _ _ _ _ (by decide) ha2 hb

lemma to_frame_key_exists (c : NetworkCard) (p f : String) (hp : p ∈ panelNames) :
    (∃ fr ∈ c.to_frame, fr.panel = p ∧ fr.field = f) ↔
      dictMember (c.panelByName p) f = true := by
  have h1 : (∃ fr ∈ c.to_frame, fr.panel = p ∧ fr.field = f) ↔
      (frameLookup c.to_frame p f).isSome = true := by
    rw [frameLookup, List.find?_isSome]
    constructor
    · rintro ⟨fr, hm, hp2, hf2⟩
      exact ⟨fr, hm, by simp [hp2, hf2]⟩
    · rintro ⟨fr, hm, hpred⟩
      simp only [Bool.and_eq_true, beq_iff_eq] at hpred
      exact ⟨fr, hm, hpred⟩
  rw [h1, frameLookup_to_frame c p f hp, dictMember_eq_isSome]
  cases dictGet (c.panelByName p) f <;> simp

lemma to_frame_panels (c : NetworkCard) : ∀ fr ∈ c.to_frame, fr.panel ∈ panelNames := by
  intro fr hfr
  rw [to_frame_eq] at hfr
  rcases List.mem_append.1 hfr with h | h
  · rcases List.mem_append.1 h with h2 | h2 <;>
    · simp only [segRows, List.mem_map] at h2
      obtain ⟨fe, _, rfl⟩ := h2
      simp [panelNames]
  · simp only [segRows, List.mem_map] at h
    obtain ⟨fe, _, rfl⟩ := h
    simp [panelNames]

/-- The invariant of the multicard merge loop over the processed cards:
every row names one of the three panels; (panel, field) keys are unique;
every row holds one cell per processed card, namely that card's
(value, notes) for the key, or a missing cell; and a key has a row exactly
when some processed card has that field in that panel. -/
def MergeInv (cards : List NetworkCard) (acc : List MRow) : Prop :=
  (∀ r ∈ acc, r.panel ∈ panelNames) ∧
  ((acc.map (fun r => (r.panel, r.field))).Nodup) ∧
  (∀ r ∈ acc, r.cells.length = cards.length ∧
    ∀ (i : Nat) (ci : NetworkCard), cards[i]? = some ci →
      r.cells[i]? = some ((dictGet (ci.panelByName r.panel) r.field).map
        (fun e => (e.value, e.notes)))) ∧
  (∀ p f, p ∈ panelNames →
    ((∃ r ∈ acc, r.panel = p ∧ r.field = f) ↔
      ∃ cd ∈ cards, dictMember (cd.panelByName p) f = true))

lemma mem_mergeOnto (n : Nat) (acc : List MRow) (rows : List FrameRow) (r : MRow) :
    r ∈ mergeOnto n acc rows ↔
      (∃ r0 ∈ acc, r = ⟨r0.panel, r0.field, r0.cells ++
        [(frameLookup rows r0.panel r0.field).map (fun fr => (fr.value, fr.note))]⟩) ∨
      (∃ fr ∈ rows, (¬ ∃ r0 ∈ acc, r0.panel = fr.panel ∧ r0.field = fr.field) ∧
        r = ⟨fr.panel, fr.field, List.replicate n none ++ [some (fr.value, fr.note)]⟩) := by
  simp only [mergeOnto, List.mem_append, List.mem_map, List.mem_filter,
    Bool.not_eq_true', List.any_eq_false, Bool.and_eq_true, beq_iff_eq]
  constructor
  · rintro (⟨r0, h0, rfl⟩ | ⟨fr, ⟨hfr, hno⟩, rfl⟩)
    · exact Or.inl ⟨r0, h0, rfl⟩
    · refine Or.inr ⟨fr, hfr, ?_, rfl⟩
      rintro ⟨r0, h0, hp, hf⟩
      have := hno r0 h0
      simp [hp, hf] at this
  · rintro (⟨r0, h0, rfl⟩ | ⟨fr, hfr, hno, rfl⟩)
    · exact Or.inl ⟨r0, h0, rfl⟩
    · refine Or.inr ⟨fr, ⟨hfr, ?_⟩, rfl⟩
      intro r0 h0
      exact fun hh => hno ⟨r0, h0, hh.1, hh.2⟩

lemma mergeOnto_keys (n : Nat) (acc : List MRow) (rows : List FrameRow) :
    (mergeOnto n acc rows).map (fun r => (r.panel, r.field)) =
      acc.map (fun r => (r.panel, r.field)) ++
        (rows.filter (fun fr => !(acc.any
          (fun r => r.panel == fr.panel && r.field == fr.field)))).map
          (fun fr => (fr.panel, fr.field)) := by
  simp only [mergeOnto, List.map_append, List.map_map]
  rfl

lemma mergeOnto_inv (pref : List NetworkCard) (c : NetworkCard) (acc : List MRow)
    (hc : c.WF) (h : MergeInv pref acc) :
    MergeInv (pref ++ [c]) (mergeOnto pref.length acc c.to_frame) := by
  obtain ⟨hI0, hI1, hI2, hI3⟩ := h
  refine ⟨?_, ?_, ?_, ?_⟩
  · intro r hr
    rcases (mem_mergeOnto _ _ _ r).1 hr with ⟨r0, h0, rfl⟩ | ⟨fr, hfr, _, rfl⟩
    · exact hI0 r0 h0
    · exact to_frame_panels c fr hfr
  · rw [mergeOnto_keys]
    refine List.Nodup.append hI1 ?_ ?_
    · exact List.Nodup.sublist ((List.filter_sublist _).map _) (to_frame_keys_nodup c hc)
    · intro a ha hb
      simp only [List.mem_map, List.mem_filter] at hb
      obtain ⟨fr, ⟨_, hfil⟩, rfl⟩ := hb
      simp only [Bool.not_eq_true', List.any_eq_false, Bool.and_eq_true, beq_iff_eq,
        not_and] at hfil
      simp only [List.mem_map] at ha
      obtain ⟨r0, hr0, hkey⟩ := ha
      exact hfil r0 hr0 (congrArg Prod.fst hkey) (congrArg Prod.snd hkey)
  · intro r hr
    rcases (mem_mergeOnto _ _ _ r).1 hr with ⟨r0, h0, rfl⟩ | ⟨fr, hfr, hnew, rfl⟩
    · obtain ⟨hlen, hcells⟩ := hI2 r0 h0
      refine ⟨by simp [hlen], ?_⟩
      intro i ci hci
      rcases Nat.lt_or_ge i pref.length with hi | hi
      · have hc1 : (pref ++ [c])[i]? = pref[i]? := List.getElem?_append_left (by simpa using hi)
        rw [hc1] at hci
        have hres := hcells i ci hci
        rw [List.getElem?_append_left (by simpa [hlen] using hi)]
        exact hres
      · have hib : i < pref.length + 1 := by
          have := (List.getElem?_eq_some.1 hci).1
          simpa using this
        have hieq : i = pref.length := by omega
        subst hieq
        have hc2 : (pref ++ [c])[pref.length]? = some c := by
          simpa using List.getElem?_concat_length pref c
        rw [hc2] at hci
        obtain rfl : c = ci := Option.some.inj hci
        have hcell : (r0.cells ++ [(frameLookup c.to_frame r0.panel r0.field).map
            (fun fr => (fr.value, fr.note))])[pref.length]? =
            some ((frameLookup c.to_frame r0.panel r0.field).map
              (fun fr => (fr.value, fr.note))) := by
          rw [← hlen]
          exact List.getElem?_concat_length _ _
        rw [hcell, frameLookup_to_frame c _ _ (hI0 r0 h0), Option.map_map]
        rfl
    · refine ⟨by simp, ?_⟩
      intro i ci hci
      rcases Nat.lt_or_ge i pref.length with hi | hi
      · have hc1 : (pref ++ [c])[i]? = pref[i]? := List.getElem?_append_left (by simpa using hi)
        rw [hc1] at hci
        have hcimem : ci ∈ pref := List.getElem?_mem hci
        rw [List.getElem?_append_left (by simpa using hi), List.getElem?_replicate,
          if_pos hi]
        have hnot : ¬ ∃ cd ∈ pref, dictMember (cd.panelByName fr.panel) fr.field = true :=
          fun hex => hnew ((hI3 fr.panel fr.field (to_frame_panels c fr hfr)).2 hex)
        have hmem_false : dictMember (ci.panelByName fr.panel) fr.field = false := by
          by_contra hbb
          exact hnot ⟨ci, hcimem, by simpa using hbb⟩
        rw [dictGet_eq_none_of_not_member hmem_false]
        rfl
      · have hib : i < pref.length + 1 := by
          have := (List.getElem?_eq_some.1 hci).1
          simpa using this
        have hieq : i = pref.length := by omega
        subst hieq
        have hc2 : (pref ++ [c])[pref.length]? = some c := by
          simpa using List.getElem?_concat_length pref c
        rw [hc2] at hci
        obtain rfl : c = ci := Option.some.inj hci
        have hcell : (List.replicate pref.length (none : Option (Value × List Value)) ++
            [some (fr.value, fr.note)])[pref.length]? = some (some (fr.value, fr.note)) := by
          have := List.getElem?_concat_length
            (List.replicate pref.length (none : Option (Value × List Value)))
            (some (fr.value, fr.note))
          simpa using this
        rw [hcell]
        have hself := frameLookup_self c.to_frame (to_frame_keys_nodup c hc) fr hfr
        rw [frameLookup_to_frame c _ _ (to_frame_panels c fr hfr)] at hself
        cases hdg : dictGet (c.panelByName fr.panel) fr.field with
        | none =>
          rw [hdg] at hself
          cases hself
        | some e =>
          rw [hdg] at hself
          have hfr_eq : (⟨fr.panel, fr.field, e.value, e.notes⟩ : FrameRow) = fr :=
            Option.some.inj hself
          have hv : e.value = fr.value := congrArg FrameRow.value hfr_eq
          have hn : e.notes = fr.note := congrArg FrameRow.note hfr_eq
          simp [hv, hn]
  · intro p f hp
    constructor
    · rintro ⟨r, hr, hp2, hf2⟩
      rcases (mem_mergeOnto _ _ _ r).1 hr with ⟨r0, h0, rfl⟩ | ⟨fr, hfr, _, rfl⟩
      · obtain ⟨cd, hcd, hm⟩ := (hI3 p f hp).1 ⟨r0, h0, hp2, hf2⟩
        exact ⟨cd, List.mem_append_left _ hcd, hm⟩
      · have hkey : dictMember (c.panelByName p) f = true :=
          (to_frame_key_exists c p f hp).1 ⟨fr, hfr, hp2, hf2⟩
        exact ⟨c, List.mem_append_right _ (by simp), hkey⟩
    · rintro ⟨cd, hcd, hm⟩
      rcases List.mem_append.1 hcd with hcd2 | hcd2
      · obtain ⟨r, hr, hkey⟩ := (hI3 p f hp).2 ⟨cd, hcd2, hm⟩
        exact ⟨⟨r.panel, r.field, r.cells ++ [(frameLookup c.to_frame r.panel r.field).map
          (fun fr => (fr.value, fr.note))]⟩,
          (mem_mergeOnto _ _ _ _).2 (Or.inl ⟨r, hr, rfl⟩), hkey.1, hkey.2⟩
      · have hcdc : cd = c := by simpa using hcd2
        subst hcdc
        obtain ⟨fr, hfr, hfp, hff⟩ := (to_frame_key_exists cd p f hp).2 hm
        by_cases hacc : ∃ r0 ∈ acc, r0.panel = fr.panel ∧ r0.field = fr.field
        · obtain ⟨r0, h0, hkp, hkf⟩ := hacc
          exact ⟨⟨r0.panel, r0.field, r0.cells ++
            [(frameLookup cd.to_frame r0.panel r0.field).map (fun fr => (fr.value, fr.note))]⟩,
            (mem_mergeOnto _ _ _ _).2 (Or.inl ⟨r0, h0, rfl⟩),
            by rw [hkp, hfp], by rw [hkf, hff]⟩
        · exact ⟨⟨fr.panel, fr.field, List.replicate pref.length none ++
            [some (fr.value, fr.note)]⟩,
            (mem_mergeOnto _ _ _ _).2 (Or.inr ⟨fr, hfr, hacc, rfl⟩), hfp, hff⟩

lemma multiFold_inv (rest : List NetworkCard) : ∀ (pref : List NetworkCard) (acc : List MRow),
    (∀ cd ∈ rest, cd.WF) → MergeInv pref acc →
    MergeInv (pref ++ rest)
      ((List.enumFrom pref.length rest).foldl
        (fun a ic => mergeOnto ic.1 a ic.2.to_frame) acc) := by
  induction rest with
  | nil =>
    intro pref acc _ h
    simpa using h
  | cons c rest ih =>
    intro pref acc hwf h
    have step := mergeOnto_inv pref c acc (hwf c (by simp)) h
    have hres := ih (pref ++ [c]) (mergeOnto pref.length acc c.to_frame)
      (fun cd hcd => hwf cd (by simp [hcd])) step
    rw [List.append_assoc, List.singleton_append] at hres
    rw [show (pref ++ [c]).length = pref.length + 1 by simp] at hres
    simpa [List.enumFrom] using hres

lemma multiMerged_inv (cards : List NetworkCard) (h : ∀ cd ∈ cards, cd.WF) :
    MergeInv cards (multiMerged cards) := by
  have hbase : MergeInv [] [] := by
    refine ⟨by simp, by simp, by simp, ?_⟩
    intro p f _
    simp
  have := multiFold_inv cards [] [] h hbase
  simpa [multiMerged, List.enum_eq_enumFrom] using this

lemma multicard_rows_perm (cards : List NetworkCard) (h : ∀ cd ∈ cards, cd.WF) :
    (NetworkMultiCard.rows cards).Perm (multiMerged cards) := by
  have hpanels := (multiMerged_inv cards h).1
  have perm1 := List.filter_append_perm (fun r : MRow => r.panel == "Overall")
    (multiMerged cards)
  have perm2 := List.filter_append_perm (fun r : MRow => r.panel == "Structure")
    ((multiMerged cards).filter (fun r => !(r.panel == "Overall")))
  have e2 : ((multiMerged cards).filter (fun r => !(r.panel == "Overall"))).filter
      (fun r => r.panel == "Structure") =
      (multiMerged cards).filter (fun r => r.panel == "Structure") := by
    rw [List.filter_filter]
    apply List.filter_congr
    intro r _
    cases hb : (r.panel == "Structure")
    · simp
    · have : r.panel = "Structure" := by simpa using hb
      simp [this]
  have e3 : ((multiMerged cards).filter (fun r => !(r.panel == "Overall"))).filter
      (fun r => !(r.panel == "Structure")) =
      (multiMerged cards).filter (fun r => r.panel == "Metainformation") := by
    rw [List.filter_filter]
    apply List.filter_congr
    intro r hr
    have := hpanels r hr
    simp only [panelNames, List.mem_cons, List.not_mem_nil, or_false] at this
    rcases this with hpn | hpn | hpn <;> simp [hpn]
  show ((multiMerged cards).filter (fun r => r.panel == "Overall") ++
      (multiMerged cards).filter (fun r => r.panel == "Structure") ++
      (multiMerged cards).filter (fun r => r.panel == "Metainformation")).Perm
      (multiMerged cards)
  rw [List.append_assoc, ← e2, ← e3]
  exact (perm2.append_left _).trans perm1

/-- C2.  For any list of well-formed input cards, the multicard built by
`NetworkMultiCard.__init__` has: unique (panel, field) row keys; for each of
the three panels, a row for a field exactly when some input card has that
field in that panel (the outer join union, so no row is ever dropped); and
every row carries one cell per input card, holding exactly that card's
(value, footnotes) for the key, the cell being the outer-join miss when the
card lacks the field, which the render then fills with the explicit blank
value.  The rows are grouped by panel in the fixed Overall, Structure,
Metainformation order by construction (`NetworkMultiCard.rows`). -/
theorem multicard_outer_join_c2 (cards : List NetworkCard)
    (h : ∀ cd ∈ cards, cd.WF) :
    ((NetworkMultiCard.rows cards).map (fun r => (r.panel, r.field))).Nodup ∧
    (∀ p ∈ panelNames, ∀ f : String,
      ((∃ r ∈ NetworkMultiCard.rows cards, r.panel = p ∧ r.field = f) ↔
        ∃ cd ∈ cards, dictMember (cd.panelByName p) f = true)) ∧
    (∀ r ∈ NetworkMultiCard.rows cards, r.cells.length = cards.length ∧
      ∀ (i : Nat) (ci : NetworkCard), cards[i]? = some ci →
        (r.cells[i]? = some ((dictGet (ci.panelByName r.panel) r.field).map
          (fun e => (e.value, e.notes))) ∧
        (dictMember (ci.panelByName r.panel) r.field = false →
          r.renderValues[i]? = some nullString))) := by
  obtain ⟨hI0, hI1, hI2, hI3⟩ := multiMerged_inv cards h
  have hperm := multicard_rows_perm cards h
  refine ⟨?_, ?_, ?_⟩
  · exact (hperm.map (fun r => (r.panel, r.field))).nodup_iff.2 hI1
  · intro p hp f
    constructor
    · rintro ⟨r, hr, hk⟩
      exact (hI3 p f hp).1 ⟨r, hperm.mem_iff.1 hr, hk⟩
    · intro hex
      obtain ⟨r, hr, hk⟩ := (hI3 p f hp).2 hex
      exact ⟨r, hperm.mem_iff.2 hr, hk⟩
  · intro r hr
    have hrm : r ∈ multiMerged cards := hperm.mem_iff.1 hr
    obtain ⟨hlen, hcells⟩ := hI2 r hrm
    refine ⟨hlen, ?_⟩
    intro i ci hci
    have hcell := hcells i ci hci
    refine ⟨hcell, ?_⟩
    intro hmf
    rw [MRow.renderValues, List.getElem?_map, hcell, dictGet_eq_none_of_not_member hmf]
    rfl

/-- C2 witness at two concrete cards with disjoint extra structure fields:
the hypothesis discharged by decide, the union row-existence instantiated for
the second card's field, and the unique-key conclusion instantiated. -/
theorem multicard_outer_join_c2_witness :
    (∀ cd ∈ [(⟨[("Name", .val (.vstr "A"))], [("X", .val (.vstr "1"))], []⟩ : NetworkCard),
        ⟨[("Name", .val (.vstr "B"))], [("Y", .val (.vstr "2"))], []⟩], cd.WF) ∧
    (∃ r ∈ NetworkMultiCard.rows
        [(⟨[("Name", .val (.vstr "A"))], [("X", .val (.vstr "1"))], []⟩ : NetworkCard),
          ⟨[("Name", .val (.vstr "B"))], [("Y", .val (.vstr "2"))], []⟩],
        r.panel = "Structure" ∧ r.field = "Y") ∧
    ((NetworkMultiCard.rows
        [(⟨[("Name", .val (.vstr "A"))], [("X", .val (.vstr "1"))], []⟩ : NetworkCard),
          ⟨[("Name", .val (.vstr "B"))], [("Y", .val (.vstr "2"))], []⟩]).map
        (fun r => (r.panel, r.field))).Nodup :=
  ⟨by decide,
    ((multicard_outer_join_c2 _ (by decide)).2.1 "Structure" (by decide) "Y").2
      ⟨⟨[("Name", .val (.vstr "B"))], [("Y", .val (.vstr "2"))], []⟩, by decide, by decide⟩,
    (multicard_outer_join_c2 _ (by decide)).1⟩

end NetworkCards
